import Mathlib

/-!
# RayTracingWithTriangles: a shallow embedding of `RayTracing.cpp`

The renderer casts one ray per pixel from a perspective camera, intersects it
with every triangle of the scene and keeps the colour of the nearest hit.

The program is embedded twice.

* The exact model (namespace `RayTracing`): a C++ `float` is a rational number (`ℚ`) and
  every operation is exact; rounding, overflow, infinities and NaN are outside it.  It
  carries the claims on the control structure of the program, which hold whatever the
  arithmetic returns.
* The binary32 model (namespace `RayTracing.Binary32`): a `float` is NaN, an infinity or
  a finite number, and every operation is rounded to nearest, ties to even.  It carries
  the claims whose truth depends on rounding; the two models agree where no operation
  rounds.

Conventions of both.

* Every literal is the binary32 number it denotes (`0.0001f` is `13743895 / 2^37`,
  `1.570796f` is `1647099 / 2^20`, `0.7f` is `11744051 / 2^24`), and
  `std::numeric_limits<float>::max()` is `(2^24 - 1) * 2^104`.
* The two `<cmath>` functions the program calls, `sqrt` and `tan`, are a parameter
  (`CMath`) of the functions that call them.
* `bool intersect(const Ray&, float& t)` returns its out-parameter: `some t` when
  the C++ function returns `true`, `none` when it returns `false`.  `RayCast` reads
  `t` only after a `true` (the `&&` short-circuits).
* `Scene` and `Image` are lists; a `for` loop is a left fold over the list of the
  values its variable takes.
-/

namespace RayTracing

/-! ## Constants and the `Point` algebra -/

/-- Image width, `constexpr unsigned WIDTH = 1028`. -/
def WIDTH : Nat := 1028

/-- Image height, `constexpr unsigned HEIGHT = 1028`. -/
def HEIGHT : Nat := 1028

/-- The value of `std::numeric_limits<float>::max()`, the largest finite binary32. -/
def FLT_MAX : ℚ := (2 ^ 24 - 1) * 2 ^ 104

/-- The struct `Point`: a triple of floats, used for positions, directions and colours. -/
structure Point where
  /-- First coordinate (red channel of a colour). -/
  x : ℚ
  /-- Second coordinate (green channel of a colour). -/
  y : ℚ
  /-- Third coordinate (blue channel of a colour). -/
  z : ℚ
deriving DecidableEq

/-- The `operator+` of two points: componentwise sum. -/
instance : Add Point := ⟨fun u v => ⟨u.x + v.x, u.y + v.y, u.z + v.z⟩⟩

/-- The `operator-` of two points: componentwise difference. -/
instance : Sub Point := ⟨fun u v => ⟨u.x - v.x, u.y - v.y, u.z - v.z⟩⟩

/-- The `float operator*(const Point&, const Point&)`: dot product. -/
def dot (u v : Point) : ℚ := u.x * v.x + u.y * v.y + u.z * v.z

/-- The `Point operator*(float, const Point&)`: scalar multiplication. -/
def smul (c : ℚ) (u : Point) : Point := ⟨u.x * c, u.y * c, u.z * c⟩

/-- The struct `Ray`: origin `O` and direction `R`. -/
structure Ray where
  /-- The origin. -/
  O : Point
  /-- The direction. -/
  R : Point
deriving DecidableEq

/-- The method `Ray::compute`: the point `O + t * R`. -/
def Ray.compute (r : Ray) (t : ℚ) : Point := r.O + smul t r.R

/-- The function `cross`: cross product of two vectors. -/
def cross (u v : Point) : Point :=
  ⟨u.y * v.z - u.z * v.y, v.x * u.z - u.x * v.z, u.x * v.y - u.y * v.x⟩

/-- The two `<cmath>` functions used by the program. -/
structure CMath where
  /-- The library function `sqrt`. -/
  sqrt : ℚ → ℚ
  /-- The library function `tan`. -/
  tan : ℚ → ℚ

/-- The function `normalize`: divide every component by the Euclidean norm. -/
def normalize (m : CMath) (n : Point) : Point :=
  let norm := m.sqrt (n.x * n.x + n.y * n.y + n.z * n.z)
  ⟨n.x / norm, n.y / norm, n.z / norm⟩

/-! ## Camera -/

/-- The class `PerspectiveCamera`, with the default arguments of its constructor. -/
structure PerspectiveCamera where
  /-- Field of view in radians, default `1.570796f`, the binary32 number `1647099 / 2^20`. -/
  fov : ℚ := 1647099 / 1048576
  /-- Position of the camera, default the origin. -/
  pos : Point := ⟨0, 0, 0⟩
  /-- The up vector, default `(0,1,0)`; never read by the ray construction. -/
  up : Point := ⟨0, 1, 0⟩
  /-- The viewing direction, default `(0,0,-1)`. -/
  dir : Point := ⟨0, 0, -1⟩

/-- Getter `getFov`. -/
def PerspectiveCamera.getFov (c : PerspectiveCamera) : ℚ := c.fov

/-- Getter `getPos`. -/
def PerspectiveCamera.getPos (c : PerspectiveCamera) : Point := c.pos

/-- Getter `getDir`. -/
def PerspectiveCamera.getDir (c : PerspectiveCamera) : Point := c.dir

/-- The function `ConstructRayThroughPixel`, statement by statement. -/
def ConstructRayThroughPixel (m : CMath) (camera : PerspectiveCamera) (i j : Nat) : Ray :=
  let alfa := camera.getFov
  let dir := normalize m camera.getDir
  -- NDC space
  let Px : ℚ := ((i : ℚ) + 1 / 2) / (WIDTH : ℚ)
  let Py : ℚ := ((j : ℚ) + 1 / 2) / (HEIGHT : ℚ)
  -- Screen space
  let Px := 2 * Px - 1
  let Py := 1 - 2 * Py
  -- Account the aspect ratio
  let Px := (Px * (WIDTH : ℚ)) / (HEIGHT : ℚ)
  -- Account fov
  let Px := Px * m.tan (alfa / 2)
  let Py := Py * m.tan (alfa / 2)
  let res : Point := (⟨Px, Py, 0⟩ : Point) + dir
  ⟨camera.getPos, res⟩

/-! ## Triangles -/

/-- The class `Triangle`: three vertices and a colour. -/
structure Triangle where
  /-- First vertex. -/
  a : Point
  /-- Second vertex. -/
  b : Point
  /-- Third vertex. -/
  c : Point
  /-- Colour, a triple of floats. -/
  col : Point
deriving DecidableEq

/-- Getter `getCol`. -/
def Triangle.getCol (k : Triangle) : Point := k.col

/-- The method `Triangle::getNormal`: `cross(a - c, b - c)`, not normalised. -/
def Triangle.getNormal (k : Triangle) : Point := cross (k.a - k.c) (k.b - k.c)

/-- The method `Triangle::intersect`.  `none` is `return false`; `some t` is `return true`
with the out-parameter set to `t`. -/
def Triangle.intersect (k : Triangle) (ray : Ray) : Option ℚ :=
  let normal := k.getNormal
  let D := dot normal k.a
  let epsilion : ℚ := 13743895 / 137438953472
  if dot normal ray.R ≥ 0 ∧ dot normal ray.R < epsilion then none
  else
    let t := (dot normal ray.O + D) / (dot normal ray.R)
    if t < 0 then none else some t

/-- The method `Triangle::isInside`: the three same-side tests against the normal. -/
def Triangle.isInside (k : Triangle) (p : Point) : Bool :=
  let normal := k.getNormal
  let e0 := k.a - k.c
  let e1 := k.b - k.a
  let e2 := k.c - k.b
  let c0 := p - k.c
  let c1 := p - k.a
  let c2 := p - k.b
  if dot normal (cross e0 c0) < 0 then false
  else if dot normal (cross e1 c1) < 0 then false
  else if dot normal (cross e2 c2) < 0 then false
  else true

/-! ## The renderer -/

/-- The type `Scene`: a vector of triangles. -/
abbrev Scene := List Triangle

/-- The type `Image`: rows of cells, each cell an RGB triple. -/
abbrev Image := List (List Point)

/-- One iteration of the loop `for (Triangle k : triangles)` of `RayCast`, on the pair
`(t_min, col)`. -/
def RayCast.body (ray : Ray) (st : ℚ × Point) (k : Triangle) : ℚ × Point :=
  match k.intersect ray with
  | some t =>
    if k.isInside (ray.compute t) then
      if t < st.1 then (t, k.getCol) else st
    else st
  | none => st

/-- The loop over the triangles of `RayCast` for one ray, from `t_min = FLT_MAX` and
`col = {0,0,0}`; the result is the final `(t_min, col)`. -/
def RayCast.nearest (ray : Ray) (triangles : Scene) : ℚ × Point :=
  triangles.foldl (RayCast.body ray) (FLT_MAX, ⟨0, 0, 0⟩)

/-- The value assigned to `data[i][j]` by `RayCast`. -/
def RayCast.pixel (m : CMath) (camera : PerspectiveCamera) (triangles : Scene)
    (i j : Nat) : Point :=
  (RayCast.nearest (ConstructRayThroughPixel m camera i j) triangles).2

/-- The assignment `data[i][j] = v` on a vector of vectors. -/
def Image.write (data : Image) (i j : Nat) (v : Point) : Image :=
  data.set i ((data.getD i []).set j v)

/-- The function `RayCast`: the image starts as `HEIGHT` rows of `WIDTH` black cells and
the two nested loops assign every cell. -/
def RayCast (m : CMath) (camera : PerspectiveCamera) (triangles : Scene) : Image :=
  (List.range HEIGHT).foldl
    (fun data i =>
      (List.range WIDTH).foldl
        (fun data j => Image.write data i j (RayCast.pixel m camera triangles i j))
        data)
    (List.replicate HEIGHT (List.replicate WIDTH ⟨0, 0, 0⟩))

/-! ## The scene of `main` -/

/-- The triangle `first` of `main`. -/
def first : Triangle := ⟨⟨0, 1, -3⟩, ⟨-1, -1, -3⟩, ⟨1, -1, -3⟩, ⟨1, 1, 0⟩⟩

/-- The triangle `second` of `main`. -/
def second : Triangle := ⟨⟨0, 2, -4⟩, ⟨-2, -2, -4⟩, ⟨2, -2, -4⟩, ⟨0, 1, 0⟩⟩

/-- The triangle `third` of `main`. -/
def third : Triangle := ⟨⟨-3, 1, -7⟩, ⟨-3, -1, -7⟩, ⟨3, -1, -7⟩, ⟨1, 0, 0⟩⟩

/-- The triangle `forth` of `main`. -/
def forth : Triangle :=
  ⟨⟨-1 / 2, 6, -8⟩, ⟨-13 / 2, -6, -8⟩, ⟨5, -6, -8⟩, ⟨0, 0, 11744051 / 16777216⟩⟩

/-- The scene built by `main`. -/
def scene : Scene := [first, second, third, forth]

/-- The image computed by `main`: `RayCast(PerspectiveCamera{ }, scene)`. -/
def result (m : CMath) : Image := RayCast m {} scene


/-! ## Vocabulary of the claims -/

/-- The condition of the `if` of `RayCast` holds for `k` with parameter `t`:
`k.intersect(ray, t)` returns `true` with that `t` and `k.isInside(ray.compute(t))`. -/
def Hits (ray : Ray) (k : Triangle) (t : ℚ) : Prop :=
  k.intersect ray = some t ∧ k.isInside (ray.compute t) = true

instance (ray : Ray) (k : Triangle) (t : ℚ) : Decidable (Hits ray k t) := by
  unfold Hits; infer_instance

/-- A valid hit: the condition of the `if` holds and `t` is below the initial `t_min`. -/
def ValidHit (ray : Ray) (k : Triangle) (t : ℚ) : Prop :=
  Hits ray k t ∧ t < FLT_MAX

instance (ray : Ray) (k : Triangle) (t : ℚ) : Decidable (ValidHit ray k t) := by
  unfold ValidHit; infer_instance

/-- The cell `data[i][j]` of an image, when it exists. -/
def Image.read (data : Image) (i j : Nat) : Option Point :=
  (data[i]?).bind (fun row => row[j]?)

/-- The closed triangle spanned by the vertices of `k`: the points `α a + β b + γ c` with
non-negative weights of sum one. -/
def InClosedTriangle (k : Triangle) (p : Point) : Prop :=
  ∃ α β γ : ℚ, 0 ≤ α ∧ 0 ≤ β ∧ 0 ≤ γ ∧ α + β + γ = 1 ∧
    p = smul α k.a + smul β k.b + smul γ k.c

/-- The centroid `(a + b + c) / 3` of a triangle. -/
def centroid (k : Triangle) : Point := smul (1 / 3) (k.a + k.b + k.c)

/-- The colour the end-to-end property of the scene of `main` names for a ray of direction
`(px, py, -1)`: the first of the four triangles, front to back, whose `isInside` accepts
the point of the ray at its depth, and background when none does. -/
def silhouetteColour (px py : ℚ) : Point :=
  if first.isInside ⟨3 * px, 3 * py, -3⟩ then first.col
  else if second.isInside ⟨4 * px, 4 * py, -4⟩ then second.col
  else if third.isInside ⟨7 * px, 7 * py, -7⟩ then third.col
  else if forth.isInside ⟨8 * px, 8 * py, -8⟩ then forth.col
  else ⟨0, 0, 0⟩

/-- Three points on one line: each is `p + s * d` for a common point `p` and a common
direction `d`. -/
def Collinear (a b c : Point) : Prop :=
  ∃ (p d : Point) (s1 s2 s3 : ℚ),
    a = p + smul s1 d ∧ b = p + smul s2 d ∧ c = p + smul s3 d

/-- A division that reports a zero divisor: `none` when `y = 0`. -/
def checkedDiv (x y : ℚ) : Option ℚ := if y = 0 then none else some (x / y)

/-- The method `Triangle::intersect` with its division checked: the outer `none` is a
division by zero, `some r` is a run that returns `r` as in `Triangle.intersect`. -/
def Triangle.intersectChecked (k : Triangle) (ray : Ray) : Option (Option ℚ) :=
  let normal := k.getNormal
  let D := dot normal k.a
  let epsilion : ℚ := 13743895 / 137438953472
  if dot normal ray.R ≥ 0 ∧ dot normal ray.R < epsilion then some none
  else
    match checkedDiv (dot normal ray.O + D) (dot normal ray.R) with
    | none => none
    | some t => if t < 0 then some none else some (some t)

/-- The copy of a triangle with the first two vertices exchanged: `(b, a, c)`, same
colour. -/
def Triangle.reversed (k : Triangle) : Triangle := ⟨k.b, k.a, k.c, k.col⟩

/-- The pixels `(i, j)` in the order in which the two nested loops of `RayCast` assign
them: rows `0 .. HEIGHT-1`, and in each row the columns `0 .. WIDTH-1`. -/
def RayCast.order : List (Nat × Nat) :=
  (List.range HEIGHT).flatMap (fun i => (List.range WIDTH).map (fun j => (i, j)))

/-- The image obtained from the initial buffer when the assignments
`data[i][j] = col` of `RayCast` are made for the pixels of `pixels`, in that order. -/
def RayCast.along (m : CMath) (camera : PerspectiveCamera) (triangles : Scene)
    (pixels : List (Nat × Nat)) : Image :=
  pixels.foldl
    (fun data p => Image.write data p.1 p.2 (RayCast.pixel m camera triangles p.1 p.2))
    (List.replicate HEIGHT (List.replicate WIDTH ⟨0, 0, 0⟩))

/-! ## The binary32 model

The same program with every `float` a binary32 value and every operation rounded on its
own to nearest, ties to even (no fused multiply-add, no wider intermediate precision).
Zero carries no sign: the functions embedded here compare values and divide only by a
divisor they have tested, so they cannot tell `+0` from `-0`. -/

namespace Binary32

/-- A binary32 value: NaN, an infinity (`neg` for `-inf`) or a finite number. -/
inductive F32 where
  | nan : F32
  | inf (neg : Bool) : F32
  | fin (q : ℚ) : F32
deriving DecidableEq

/-- The power `2^e` for an integer exponent. -/
def pow2 (e : ℤ) : ℚ :=
  if 0 ≤ e then ((2 ^ e.toNat : ℕ) : ℚ) else 1 / ((2 ^ (-e).toNat : ℕ) : ℚ)

/-- Bisection for the binary exponent: the largest `e` in `lo .. hi` with `2^e <= a`, and
`lo` when there is none, in at most `n` halvings of the interval. -/
def expoAux : ℕ → ℤ → ℤ → ℚ → ℤ
  | 0, lo, _, _ => lo
  | n + 1, lo, hi, a =>
    if pow2 ((lo + hi + 1) / 2) ≤ a then expoAux n ((lo + hi + 1) / 2) hi a
    else expoAux n lo ((lo + hi + 1) / 2 - 1) a

/-- The exponent of the binary32 format at the magnitude `a`: the largest `e` in
`-126 .. 127` with `2^e <= a`, and `-126` for the subnormal range. -/
def expo (a : ℚ) : ℤ := expoAux 8 (-126) 127 a

/-- Rounding to the nearest integer, ties to the even one. -/
def roundEven (m : ℚ) : ℤ :=
  if m - ⌊m⌋ < 1 / 2 then ⌊m⌋
  else if 1 / 2 < m - ⌊m⌋ then ⌊m⌋ + 1
  else if ⌊m⌋ % 2 = 0 then ⌊m⌋ else ⌊m⌋ + 1

/-- Rounding of a real result to binary32: 24 significant bits, nearest with ties to
even, infinity from `2^128` on. -/
def rnd (q : ℚ) : F32 :=
  let ulp : ℚ := pow2 (expo |q| - 23)
  let v : ℚ := (roundEven (|q| / ulp) : ℚ) * ulp
  if pow2 128 ≤ v then F32.inf (decide (q < 0))
  else F32.fin (if q < 0 then -v else v)

/-- Unary minus. -/
def fneg : F32 → F32
  | F32.nan => F32.nan
  | F32.inf s => F32.inf (!s)
  | F32.fin a => F32.fin (-a)

/-- Addition of two binary32 values. -/
def fadd : F32 → F32 → F32
  | F32.fin a, F32.fin b => rnd (a + b)
  | F32.nan, _ => F32.nan
  | _, F32.nan => F32.nan
  | F32.inf s, F32.inf s' => if s = s' then F32.inf s else F32.nan
  | F32.inf s, F32.fin _ => F32.inf s
  | F32.fin _, F32.inf s => F32.inf s

/-- Subtraction: the sum with the opposite. -/
def fsub (a b : F32) : F32 := fadd a (fneg b)

/-- Multiplication of two binary32 values. -/
def fmul : F32 → F32 → F32
  | F32.fin a, F32.fin b => rnd (a * b)
  | F32.nan, _ => F32.nan
  | _, F32.nan => F32.nan
  | F32.inf s, F32.inf s' => F32.inf (s != s')
  | F32.inf s, F32.fin b => if b = 0 then F32.nan else F32.inf (s != decide (b < 0))
  | F32.fin a, F32.inf s => if a = 0 then F32.nan else F32.inf (s != decide (a < 0))

/-- Division of two binary32 values. -/
def fdiv : F32 → F32 → F32
  | F32.fin a, F32.fin b =>
    if b = 0 then (if a = 0 then F32.nan else F32.inf (decide (a < 0))) else rnd (a / b)
  | F32.nan, _ => F32.nan
  | _, F32.nan => F32.nan
  | F32.inf _, F32.inf _ => F32.nan
  | F32.inf s, F32.fin b => F32.inf (s != decide (b < 0))
  | F32.fin _, F32.inf _ => F32.fin 0

/-- The comparison `a < b`; false when an operand is NaN. -/
def flt : F32 → F32 → Bool
  | F32.fin a, F32.fin b => decide (a < b)
  | F32.nan, _ => false
  | _, F32.nan => false
  | F32.inf s, F32.inf s' => s && !s'
  | F32.inf s, F32.fin _ => s
  | F32.fin _, F32.inf s => !s

/-- The comparison `a >= b`; false when an operand is NaN. -/
def fge : F32 → F32 → Bool
  | F32.fin a, F32.fin b => decide (b ≤ a)
  | F32.nan, _ => false
  | _, F32.nan => false
  | F32.inf s, F32.inf s' => !s || s'
  | F32.inf s, F32.fin _ => !s
  | F32.fin _, F32.inf s => s

/-- The comparison `a == b`; false when an operand is NaN. -/
def feq : F32 → F32 → Bool
  | F32.fin a, F32.fin b => decide (a = b)
  | F32.inf s, F32.inf s' => s == s'
  | _, _ => false

/-- The struct `Point` over binary32. -/
structure Point where
  /-- First coordinate. -/
  x : F32
  /-- Second coordinate. -/
  y : F32
  /-- Third coordinate. -/
  z : F32
deriving DecidableEq

/-- The `operator==` of two points. -/
def Point.eq (a b : Point) : Bool := feq a.x b.x && feq a.y b.y && feq a.z b.z

/-- The `operator+` of two points. -/
instance : Add Point := ⟨fun u v => ⟨fadd u.x v.x, fadd u.y v.y, fadd u.z v.z⟩⟩

/-- The `operator-` of two points. -/
instance : Sub Point := ⟨fun u v => ⟨fsub u.x v.x, fsub u.y v.y, fsub u.z v.z⟩⟩

/-- Componentwise unary minus of a point. -/
def Point.neg (u : Point) : Point := ⟨fneg u.x, fneg u.y, fneg u.z⟩

/-- The dot product `u.x * v.x + u.y * v.y + u.z * v.z`, summed left to right. -/
def dot (u v : Point) : F32 := fadd (fadd (fmul u.x v.x) (fmul u.y v.y)) (fmul u.z v.z)

/-- The scalar multiplication `{u.x * c, u.y * c, u.z * c}`. -/
def smul (c : F32) (u : Point) : Point := ⟨fmul u.x c, fmul u.y c, fmul u.z c⟩

/-- The struct `Ray` over binary32. -/
structure Ray where
  /-- The origin. -/
  O : Point
  /-- The direction. -/
  R : Point
deriving DecidableEq

/-- The method `Ray::compute`: `O + t * R`. -/
def Ray.compute (r : Ray) (t : F32) : Point := r.O + smul t r.R

/-- The function `cross` over binary32. -/
def cross (u v : Point) : Point :=
  ⟨fsub (fmul u.y v.z) (fmul u.z v.y), fsub (fmul v.x u.z) (fmul u.x v.z),
    fsub (fmul u.x v.y) (fmul u.y v.x)⟩

/-- The class `Triangle` over binary32. -/
structure Triangle where
  /-- First vertex. -/
  a : Point
  /-- Second vertex. -/
  b : Point
  /-- Third vertex. -/
  c : Point
  /-- Colour. -/
  col : Point
deriving DecidableEq

/-- Getter `getCol`. -/
def Triangle.getCol (k : Triangle) : Point := k.col

/-- The method `Triangle::getNormal`: `cross(a - c, b - c)`. -/
def Triangle.getNormal (k : Triangle) : Point := cross (k.a - k.c) (k.b - k.c)

/-- The method `Triangle::intersect`: `none` is `return false`, `some t` is `return true`
with the out-parameter set to `t`. -/
def Triangle.intersect (k : Triangle) (ray : Ray) : Option F32 :=
  let normal := k.getNormal
  let D := dot normal k.a
  let epsilion : F32 := F32.fin (13743895 / 137438953472)
  if fge (dot normal ray.R) (F32.fin 0) && flt (dot normal ray.R) epsilion then none
  else
    let t := fdiv (fadd (dot normal ray.O) D) (dot normal ray.R)
    if flt t (F32.fin 0) then none else some t

/-- The method `Triangle::isInside` over binary32. -/
def Triangle.isInside (k : Triangle) (p : Point) : Bool :=
  let normal := k.getNormal
  let e0 := k.a - k.c
  let e1 := k.b - k.a
  let e2 := k.c - k.b
  let c0 := p - k.c
  let c1 := p - k.a
  let c2 := p - k.b
  if flt (dot normal (cross e0 c0)) (F32.fin 0) then false
  else if flt (dot normal (cross e1 c1)) (F32.fin 0) then false
  else if flt (dot normal (cross e2 c2)) (F32.fin 0) then false
  else true

/-- One iteration of the loop over the triangles of `RayCast`, on `(t_min, col)`. -/
def RayCast.body (ray : Ray) (st : F32 × Point) (k : Triangle) : F32 × Point :=
  match k.intersect ray with
  | some t =>
    if k.isInside (ray.compute t) then
      if flt t st.1 then (t, k.getCol) else st
    else st
  | none => st

/-- The loop over the triangles of `RayCast` for one ray, from `t_min = FLT_MAX` and
`col = {0,0,0}`. -/
def RayCast.nearest (ray : Ray) (triangles : List Triangle) : F32 × Point :=
  triangles.foldl (RayCast.body ray)
    (F32.fin FLT_MAX, ⟨F32.fin 0, F32.fin 0, F32.fin 0⟩)

/-- The copy of a binary32 triangle with the first two vertices exchanged: `(b, a, c)`,
same colour. -/
def Triangle.reversed (k : Triangle) : Triangle := ⟨k.b, k.a, k.c, k.col⟩

/-- A point of rational coordinates as a point of the binary32 model. -/
def Point.ofExact (p : RayTracing.Point) : Point := ⟨F32.fin p.x, F32.fin p.y, F32.fin p.z⟩

/-- A ray of rational coordinates as a ray of the binary32 model. -/
def Ray.ofExact (r : RayTracing.Ray) : Ray := ⟨Point.ofExact r.O, Point.ofExact r.R⟩

/-- A triangle of rational coordinates as a triangle of the binary32 model. -/
def Triangle.ofExact (k : RayTracing.Triangle) : Triangle :=
  ⟨Point.ofExact k.a, Point.ofExact k.b, Point.ofExact k.c, Point.ofExact k.col⟩

/-- The number `q` is a binary32 number: rounding leaves it as it is. -/
def Rep (q : ℚ) : Prop := rnd q = F32.fin q

instance (q : ℚ) : Decidable (Rep q) := by
  unfold Rep; infer_instance

/-- The three differences of `u - v` are computed without rounding. -/
def ExactSub (u v : RayTracing.Point) : Prop :=
  Rep (u.x - v.x) ∧ Rep (u.y - v.y) ∧ Rep (u.z - v.z)

instance (u v : RayTracing.Point) : Decidable (ExactSub u v) := by
  unfold ExactSub; infer_instance

/-- The three sums of `u + v` are computed without rounding. -/
def ExactAdd (u v : RayTracing.Point) : Prop :=
  Rep (u.x + v.x) ∧ Rep (u.y + v.y) ∧ Rep (u.z + v.z)

instance (u v : RayTracing.Point) : Decidable (ExactAdd u v) := by
  unfold ExactAdd; infer_instance

/-- The three products of `c * u` are computed without rounding. -/
def ExactSmul (c : ℚ) (u : RayTracing.Point) : Prop :=
  Rep (u.x * c) ∧ Rep (u.y * c) ∧ Rep (u.z * c)

instance (c : ℚ) (u : RayTracing.Point) : Decidable (ExactSmul c u) := by
  unfold ExactSmul; infer_instance

/-- The six products and three differences of `cross(u, v)` are computed without
rounding. -/
def ExactCross (u v : RayTracing.Point) : Prop :=
  (Rep (u.y * v.z) ∧ Rep (u.z * v.y) ∧ Rep (u.y * v.z - u.z * v.y)) ∧
  (Rep (v.x * u.z) ∧ Rep (u.x * v.z) ∧ Rep (v.x * u.z - u.x * v.z)) ∧
  (Rep (u.x * v.y) ∧ Rep (u.y * v.x) ∧ Rep (u.x * v.y - u.y * v.x))

instance (u v : RayTracing.Point) : Decidable (ExactCross u v) := by
  unfold ExactCross; infer_instance

/-- The three products and two sums of the dot product of `u` and `v` are computed
without rounding. -/
def ExactDot (u v : RayTracing.Point) : Prop :=
  Rep (u.x * v.x) ∧ Rep (u.y * v.y) ∧ Rep (u.z * v.z) ∧
  Rep (u.x * v.x + u.y * v.y) ∧ Rep (u.x * v.x + u.y * v.y + u.z * v.z)

instance (u v : RayTracing.Point) : Decidable (ExactDot u v) := by
  unfold ExactDot; infer_instance

/-- Every operation of `getNormal` on `k` is computed without rounding. -/
def ExactNormal (k : RayTracing.Triangle) : Prop :=
  ExactSub k.a k.c ∧ ExactSub k.b k.c ∧ ExactCross (k.a - k.c) (k.b - k.c)

instance (k : RayTracing.Triangle) : Decidable (ExactNormal k) := by
  unfold ExactNormal; infer_instance

/-- Every operation of `intersect` on `k` and `ray` is computed without rounding. -/
def ExactIntersect (k : RayTracing.Triangle) (ray : RayTracing.Ray) : Prop :=
  ExactNormal k ∧ ExactDot k.getNormal k.a ∧ ExactDot k.getNormal ray.R ∧
  ExactDot k.getNormal ray.O ∧
  Rep (RayTracing.dot k.getNormal ray.O + RayTracing.dot k.getNormal k.a) ∧
  Rep ((RayTracing.dot k.getNormal ray.O + RayTracing.dot k.getNormal k.a) /
    RayTracing.dot k.getNormal ray.R)

instance (k : RayTracing.Triangle) (ray : RayTracing.Ray) :
    Decidable (ExactIntersect k ray) := by
  unfold ExactIntersect; infer_instance

/-- Every operation of `isInside` on `k` and `p` is computed without rounding. -/
def ExactInside (k : RayTracing.Triangle) (p : RayTracing.Point) : Prop :=
  ExactNormal k ∧
  (ExactSub k.b k.a ∧ ExactSub k.c k.b) ∧
  (ExactSub p k.c ∧ ExactSub p k.a ∧ ExactSub p k.b) ∧
  (ExactCross (k.a - k.c) (p - k.c) ∧ ExactCross (k.b - k.a) (p - k.a) ∧
    ExactCross (k.c - k.b) (p - k.b)) ∧
  (ExactDot k.getNormal (RayTracing.cross (k.a - k.c) (p - k.c)) ∧
    ExactDot k.getNormal (RayTracing.cross (k.b - k.a) (p - k.a)) ∧
    ExactDot k.getNormal (RayTracing.cross (k.c - k.b) (p - k.b)))

instance (k : RayTracing.Triangle) (p : RayTracing.Point) :
    Decidable (ExactInside k p) := by
  unfold ExactInside; infer_instance

/-- Every operation of `ray.compute(t)` is computed without rounding. -/
def ExactCompute (ray : RayTracing.Ray) (t : ℚ) : Prop :=
  ExactSmul t ray.R ∧ ExactAdd ray.O (RayTracing.smul t ray.R)

instance (ray : RayTracing.Ray) (t : ℚ) : Decidable (ExactCompute ray t) := by
  unfold ExactCompute; infer_instance

end Binary32

/-! ## Evaluation lemmas -/

theorem Point.add_def (u v : Point) :
    u + v = ⟨u.x + v.x, u.y + v.y, u.z + v.z⟩ := rfl

theorem Point.sub_def (u v : Point) :
    u - v = ⟨u.x - v.x, u.y - v.y, u.z - v.z⟩ := rfl

/-- From the origin along `(px, py, -1)` the plane of `first` is met at `t = 3`. -/
theorem first_intersect (px py : ℚ) :
    first.intersect ⟨⟨0, 0, 0⟩, ⟨px, py, -1⟩⟩ = some 3 := by
  norm_num [Point.add_def, Point.sub_def, Triangle.intersect, Triangle.getNormal, dot, cross, first]

/-- From the origin along `(px, py, -1)` the plane of `second` is met at `t = 4`. -/
theorem second_intersect (px py : ℚ) :
    second.intersect ⟨⟨0, 0, 0⟩, ⟨px, py, -1⟩⟩ = some 4 := by
  norm_num [Point.add_def, Point.sub_def, Triangle.intersect, Triangle.getNormal, dot, cross, second]

/-- From the origin along `(px, py, -1)` the plane of `third` is met at `t = 7`. -/
theorem third_intersect (px py : ℚ) :
    third.intersect ⟨⟨0, 0, 0⟩, ⟨px, py, -1⟩⟩ = some 7 := by
  norm_num [Point.add_def, Point.sub_def, Triangle.intersect, Triangle.getNormal, dot, cross, third]

/-- From the origin along `(px, py, -1)` the plane of `forth` is met at `t = 8`. -/
theorem forth_intersect (px py : ℚ) :
    forth.intersect ⟨⟨0, 0, 0⟩, ⟨px, py, -1⟩⟩ = some 8 := by
  norm_num [Point.add_def, Point.sub_def, Triangle.intersect, Triangle.getNormal, dot, cross, forth]

/-! ## The nearest-hit loop -/

theorem Hits.unique {ray : Ray} {k : Triangle} {t t' : ℚ}
    (h : Hits ray k t) (h' : Hits ray k t') : t = t' := by
  have := h.1.symm.trans h'.1
  exact Option.some.inj this

theorem body_of_hits {ray : Ray} {k : Triangle} {t : ℚ} (h : Hits ray k t)
    (st : ℚ × Point) :
    RayCast.body ray st k = if t < st.1 then (t, k.col) else st := by
  obtain ⟨h1, h2⟩ := h
  simp [RayCast.body, h1, h2, Triangle.getCol]

theorem body_of_not_hits {ray : Ray} {k : Triangle} (h : ∀ t, ¬ Hits ray k t)
    (st : ℚ × Point) : RayCast.body ray st k = st := by
  unfold RayCast.body
  cases hi : k.intersect ray with
  | none => rfl
  | some t =>
    have : k.isInside (ray.compute t) ≠ true := fun hin => h t ⟨hi, hin⟩
    simp [this]

/-- One iteration either keeps the state, and then the triangle has no hit below `t_min`,
or replaces it by the hit of the triangle, which is strictly below `t_min`. -/
theorem body_cases (ray : Ray) (st : ℚ × Point) (k : Triangle) :
    (RayCast.body ray st k = st ∧ ∀ t, Hits ray k t → st.1 ≤ t) ∨
    (∃ t, Hits ray k t ∧ t < st.1 ∧ RayCast.body ray st k = (t, k.col)) := by
  by_cases h : ∃ t, Hits ray k t
  · obtain ⟨t, ht⟩ := h
    by_cases hlt : t < st.1
    · right
      exact ⟨t, ht, hlt, by rw [body_of_hits ht, if_pos hlt]⟩
    · left
      refine ⟨by rw [body_of_hits ht, if_neg hlt], fun t' ht' => ?_⟩
      rw [← Hits.unique ht ht']
      exact not_lt.mp hlt
  · left
    have h' : ∀ t, ¬ Hits ray k t := fun t ht => h ⟨t, ht⟩
    exact ⟨body_of_not_hits h' st, fun t ht => absurd ht (h' t)⟩

/-- Invariant of the loop over the triangles, from any starting state `st`. -/
theorem foldl_body_spec (ray : Ray) (l : Scene) :
    ∀ st : ℚ × Point,
      (l.foldl (RayCast.body ray) st).1 ≤ st.1 ∧
      (∀ k ∈ l, ∀ t, Hits ray k t → (l.foldl (RayCast.body ray) st).1 ≤ t) ∧
      ((l.foldl (RayCast.body ray) st = st ∧ ∀ k ∈ l, ∀ t, Hits ray k t → st.1 ≤ t) ∨
        (∃ k ∈ l, Hits ray k (l.foldl (RayCast.body ray) st).1 ∧
          (l.foldl (RayCast.body ray) st).1 < st.1 ∧
          (l.foldl (RayCast.body ray) st).2 = k.col)) := by
  induction l with
  | nil =>
    intro st
    simp
  | cons k l ih =>
    intro st
    simp only [List.foldl_cons]
    obtain ⟨ih1, ih2, ih3⟩ := ih (RayCast.body ray st k)
    rcases body_cases ray st k with ⟨hb, hk⟩ | ⟨t, ht, hlt, hb⟩
    · rw [hb] at ih1 ih2 ih3 ⊢
      refine ⟨ih1, ?_, ?_⟩
      · intro k' hk' t' ht'
        rcases List.mem_cons.mp hk' with rfl | hmem
        · exact le_trans ih1 (hk t' ht')
        · exact ih2 k' hmem t' ht'
      · rcases ih3 with ⟨he, hall⟩ | ⟨k', hk', h1, h2, h3⟩
        · left
          refine ⟨he, ?_⟩
          intro k' hk' t' ht'
          rcases List.mem_cons.mp hk' with rfl | hmem
          · exact hk t' ht'
          · exact hall k' hmem t' ht'
        · right
          exact ⟨k', List.mem_cons_of_mem _ hk', h1, h2, h3⟩
    · rw [hb] at ih1 ih2 ih3 ⊢
      have ih1' : (l.foldl (RayCast.body ray) (t, k.col)).1 ≤ t := ih1
      refine ⟨le_trans ih1' (le_of_lt hlt), ?_, ?_⟩
      · intro k' hk' t' ht'
        rcases List.mem_cons.mp hk' with rfl | hmem
        · rw [← Hits.unique ht ht']
          exact ih1'
        · exact ih2 k' hmem t' ht'
      · right
        rcases ih3 with ⟨he, _⟩ | ⟨k', hk', h1, h2, h3⟩
        · rw [he]
          exact ⟨k, List.mem_cons_self _ _, ht, hlt, rfl⟩
        · exact ⟨k', List.mem_cons_of_mem _ hk', h1, lt_trans h2 hlt, h3⟩


/-- With a valid hit in the scene the loop ends on a valid hit of least parameter. -/
theorem nearest_spec (ray : Ray) (triangles : Scene)
    (h : ∃ k ∈ triangles, ∃ t, ValidHit ray k t) :
    ∃ k ∈ triangles, ∃ t, ValidHit ray k t ∧
      (RayCast.nearest ray triangles).1 = t ∧
      (RayCast.nearest ray triangles).2 = k.col ∧
      ∀ k' ∈ triangles, ∀ t', ValidHit ray k' t' → t ≤ t' := by
  obtain ⟨k0, hk0, t0, hv0, hlt0⟩ := h
  obtain ⟨_, h2, h3⟩ := foldl_body_spec ray triangles (FLT_MAX, ⟨0, 0, 0⟩)
  rcases h3 with ⟨_, hall⟩ | ⟨k, hk, hh, hlt, hcol⟩
  · exact absurd (hall k0 hk0 t0 hv0) (not_le.mpr hlt0)
  · exact ⟨k, hk, _, ⟨hh, hlt⟩, rfl, hcol, fun k' hk' t' hv' => h2 k' hk' t' hv'.1⟩

/-- Without a valid hit in the scene the loop ends in its initial state. -/
theorem nearest_of_no_valid_hit (ray : Ray) (triangles : Scene)
    (h : ∀ k ∈ triangles, ∀ t, ¬ ValidHit ray k t) :
    RayCast.nearest ray triangles = (FLT_MAX, ⟨0, 0, 0⟩) := by
  obtain ⟨_, _, h3⟩ := foldl_body_spec ray triangles (FLT_MAX, ⟨0, 0, 0⟩)
  rcases h3 with ⟨he, _⟩ | ⟨k, hk, hh, hlt, _⟩
  · exact he
  · exact absurd ⟨hh, hlt⟩ (h k hk _)

/-- A hit at or beyond the current `t_min` leaves the state of the loop unchanged. -/
theorem body_of_not_lt {ray : Ray} {k : Triangle} {t : ℚ} (h : Hits ray k t)
    (st : ℚ × Point) (hle : st.1 ≤ t) : RayCast.body ray st k = st := by
  rw [body_of_hits h, if_neg (not_lt.mpr hle)]

/-- The loop over `pre ++ k :: post` ends on `k` when `k` is a valid hit, every hit of
`pre` is strictly farther and no hit of `post` is nearer. -/
theorem nearest_first_min (ray : Ray) (pre post : Scene) (k : Triangle) (t : ℚ)
    (hk : ValidHit ray k t)
    (hpre : ∀ k' ∈ pre, ∀ t', ValidHit ray k' t' → t < t')
    (hpost : ∀ k' ∈ post, ∀ t', ValidHit ray k' t' → t ≤ t') :
    RayCast.nearest ray (pre ++ k :: post) = (t, k.col) := by
  unfold RayCast.nearest
  rw [List.foldl_append, List.foldl_cons]
  have hmid : t < (pre.foldl (RayCast.body ray) (FLT_MAX, ⟨0, 0, 0⟩)).1 := by
    obtain ⟨_, _, h3⟩ := foldl_body_spec ray pre (FLT_MAX, ⟨0, 0, 0⟩)
    rcases h3 with ⟨he, _⟩ | ⟨k', hk', hh, hlt, _⟩
    · rw [he]
      exact hk.2
    · exact hpre k' hk' _ ⟨hh, hlt⟩
  rw [body_of_hits hk.1, if_pos hmid]
  obtain ⟨_, _, h3⟩ := foldl_body_spec ray post (t, k.col)
  rcases h3 with ⟨he, _⟩ | ⟨k', hk', hh, hlt, _⟩
  · exact he
  · have hlt' : (post.foldl (RayCast.body ray) (t, k.col)).1 < t := hlt
    exact absurd (hpost k' hk' _ ⟨hh, lt_trans hlt' hk.2⟩) (not_le.mpr hlt')

/-- Scenes that are permutations of each other, without two different triangles hit at
the same parameter, end the loop in the same state. -/
theorem nearest_perm (ray : Ray) (s1 s2 : Scene) (hperm : s1.Perm s2)
    (hdistinct : ∀ k1 ∈ s1, ∀ k2 ∈ s1, k1 ≠ k2 →
      ∀ t1 t2, Hits ray k1 t1 → Hits ray k2 t2 → t1 ≠ t2) :
    RayCast.nearest ray s1 = RayCast.nearest ray s2 := by
  by_cases h : ∃ k ∈ s1, ∃ t, ValidHit ray k t
  · have h' : ∃ k ∈ s2, ∃ t, ValidHit ray k t := by
      obtain ⟨k, hk, ht⟩ := h
      exact ⟨k, hperm.mem_iff.mp hk, ht⟩
    obtain ⟨k1, hk1, t1, hv1, ht1, hc1, hmin1⟩ := nearest_spec ray s1 h
    obtain ⟨k2, hk2, t2, hv2, ht2, hc2, hmin2⟩ := nearest_spec ray s2 h'
    have hk2' : k2 ∈ s1 := hperm.mem_iff.mpr hk2
    have hk1' : k1 ∈ s2 := hperm.mem_iff.mp hk1
    have hteq : t1 = t2 := le_antisymm (hmin1 k2 hk2' t2 hv2) (hmin2 k1 hk1' t1 hv1)
    have hkeq : k1 = k2 := by
      by_contra hne
      exact hdistinct k1 hk1 k2 hk2' hne t1 t2 hv1.1 hv2.1 hteq
    apply Prod.ext
    · rw [ht1, ht2, hteq]
    · rw [hc1, hc2, hkeq]
  · have h1 : ∀ k ∈ s1, ∀ t, ¬ ValidHit ray k t := fun k hk t hv => h ⟨k, hk, t, hv⟩
    have h2 : ∀ k ∈ s2, ∀ t, ¬ ValidHit ray k t :=
      fun k hk t hv => h ⟨k, hperm.mem_iff.mpr hk, t, hv⟩
    rw [nearest_of_no_valid_hit ray s1 h1, nearest_of_no_valid_hit ray s2 h2]


/-! ## Claims on the nearest-hit loop -/

/-- C1. Nearest-hit resolution: when the scene has a valid hit (the condition of the `if`
holds with `t` below the initial `t_min`), the loop ends with the colour and the parameter
of a valid-hit triangle of the scene whose `t` is at most the `t` of every valid-hit
triangle of the scene. -/
theorem C1_nearest_hit (ray : Ray) (triangles : Scene)
    (h : ∃ k ∈ triangles, ∃ t, ValidHit ray k t) :
    ∃ k ∈ triangles, ∃ t, ValidHit ray k t ∧
      (RayCast.nearest ray triangles).1 = t ∧
      (RayCast.nearest ray triangles).2 = k.col ∧
      ∀ k' ∈ triangles, ∀ t', ValidHit ray k' t' → t ≤ t' :=
  nearest_spec ray triangles h

/-- Instance: the ray from the origin along `(0,0,-1)` and the scene `[second, first]`. -/
theorem C1_nearest_hit_witness :
    (∃ k ∈ [second, first], ∃ t, ValidHit ⟨⟨0, 0, 0⟩, ⟨0, 0, -1⟩⟩ k t) ∧
    ∃ k ∈ [second, first], ∃ t, ValidHit ⟨⟨0, 0, 0⟩, ⟨0, 0, -1⟩⟩ k t ∧
      (RayCast.nearest ⟨⟨0, 0, 0⟩, ⟨0, 0, -1⟩⟩ [second, first]).1 = t ∧
      (RayCast.nearest ⟨⟨0, 0, 0⟩, ⟨0, 0, -1⟩⟩ [second, first]).2 = k.col ∧
      ∀ k' ∈ [second, first], ∀ t', ValidHit ⟨⟨0, 0, 0⟩, ⟨0, 0, -1⟩⟩ k' t' → t ≤ t' :=
  have h : ∃ k ∈ [second, first], ∃ t, ValidHit ⟨⟨0, 0, 0⟩, ⟨0, 0, -1⟩⟩ k t :=
    ⟨first, by simp, 3, by
      norm_num [ValidHit, Hits, Triangle.intersect, Triangle.isInside, Triangle.getNormal,
        Ray.compute, dot, cross, smul, first, FLT_MAX, Point.add_def, Point.sub_def]⟩
  ⟨h, C1_nearest_hit _ _ h⟩

/-- C2. Tie-break: when `k` is a valid hit at `t`, every valid hit before it in the scene
is strictly farther and no valid hit after it is nearer (so `k` is the first of the
valid hits of least `t`), the loop ends with the colour of `k`; and a triangle hit at a
parameter equal to the current `t_min` leaves `t_min` and the colour as they are. -/
theorem C2_tie_break (ray : Ray) (pre post : Scene) (k : Triangle) (t : ℚ)
    (hk : ValidHit ray k t)
    (hpre : ∀ k' ∈ pre, ∀ t', ValidHit ray k' t' → t < t')
    (hpost : ∀ k' ∈ post, ∀ t', ValidHit ray k' t' → t ≤ t') :
    RayCast.nearest ray (pre ++ k :: post) = (t, k.col) ∧
    ∀ (st : ℚ × Point) (k' : Triangle), Hits ray k' st.1 → RayCast.body ray st k' = st :=
  ⟨nearest_first_min ray pre post k t hk hpre hpost,
    fun st _ h => body_of_not_lt h st (le_refl _)⟩

/-- Instance: along `(0,0,-1)`, `first` between `second` and a blue copy of `first`. -/
theorem C2_tie_break_witness :
    RayCast.nearest ⟨⟨0, 0, 0⟩, ⟨0, 0, -1⟩⟩
        ([second] ++ first :: [⟨first.a, first.b, first.c, ⟨0, 0, 1⟩⟩]) = (3, first.col) ∧
    ∀ (st : ℚ × Point) (k' : Triangle), Hits ⟨⟨0, 0, 0⟩, ⟨0, 0, -1⟩⟩ k' st.1 →
      RayCast.body ⟨⟨0, 0, 0⟩, ⟨0, 0, -1⟩⟩ st k' = st :=
  C2_tie_break ⟨⟨0, 0, 0⟩, ⟨0, 0, -1⟩⟩ [second] [⟨first.a, first.b, first.c, ⟨0, 0, 1⟩⟩]
    first 3
    (by
      norm_num [ValidHit, Hits, Triangle.intersect, Triangle.isInside, Triangle.getNormal,
        Ray.compute, dot, cross, smul, first, FLT_MAX, Point.add_def, Point.sub_def])
    (by
      intro k' hk' t' hv
      rw [List.mem_singleton] at hk'
      subst hk'
      have h4 := hv.1.1
      rw [second_intersect] at h4
      rw [← Option.some.inj h4]
      norm_num)
    (by
      intro k' hk' t' hv
      rw [List.mem_singleton] at hk'
      subst hk'
      have h3 := hv.1.1
      norm_num [Point.add_def, Point.sub_def, Triangle.intersect, Triangle.getNormal, dot, cross, first] at h3
      rw [← h3])

/-- C3. Order independence: for two scenes that are permutations of each other, when no
two different triangles of the scene pass the condition of the `if` with the same `t`, the
loop computes the same colour for both. -/
theorem C3_order_independent (ray : Ray) (s1 s2 : Scene) (hperm : s1.Perm s2)
    (hdistinct : ∀ k1 ∈ s1, ∀ k2 ∈ s1, k1 ≠ k2 →
      ∀ t1 t2, Hits ray k1 t1 → Hits ray k2 t2 → t1 ≠ t2) :
    (RayCast.nearest ray s1).2 = (RayCast.nearest ray s2).2 := by
  rw [nearest_perm ray s1 s2 hperm hdistinct]

/-- Instance: along `(0,0,-1)`, the scenes `[first, second]` and `[second, first]`. -/
theorem C3_order_independent_witness :
    (RayCast.nearest ⟨⟨0, 0, 0⟩, ⟨0, 0, -1⟩⟩ [first, second]).2 =
      (RayCast.nearest ⟨⟨0, 0, 0⟩, ⟨0, 0, -1⟩⟩ [second, first]).2 :=
  C3_order_independent ⟨⟨0, 0, 0⟩, ⟨0, 0, -1⟩⟩ [first, second] [second, first]
    (List.Perm.swap second first [])
    (by
      intro k1 hk1 k2 hk2 hne t1 t2 h1 h2
      have e1 := h1.1
      have e2 := h2.1
      simp only [List.mem_cons, List.mem_singleton, List.not_mem_nil, or_false] at hk1 hk2
      rcases hk1 with rfl | rfl <;> rcases hk2 with rfl | rfl
      · exact absurd rfl hne
      · rw [first_intersect] at e1
        rw [second_intersect] at e2
        rw [← Option.some.inj e1, ← Option.some.inj e2]
        norm_num
      · rw [second_intersect] at e1
        rw [first_intersect] at e2
        rw [← Option.some.inj e1, ← Option.some.inj e2]
        norm_num
      · exact absurd rfl hne)

/-- C4. A miss renders background: when no triangle of the scene passes the condition of
the `if` for the ray, the loop ends with the colour `(0,0,0)`; so does the loop over the
empty scene. -/
theorem C4_miss_background (ray : Ray) (triangles : Scene)
    (h : ∀ k ∈ triangles, ∀ t, ¬ Hits ray k t) :
    (RayCast.nearest ray triangles).2 = ⟨0, 0, 0⟩ ∧
    (RayCast.nearest ray []).2 = ⟨0, 0, 0⟩ := by
  refine ⟨?_, rfl⟩
  rw [nearest_of_no_valid_hit ray triangles (fun k hk t hv => h k hk t hv.1)]

/-- Instance: the ray from the origin along `(0,0,1)` misses the scene of `main`. -/
theorem C4_miss_background_witness :
    (RayCast.nearest ⟨⟨0, 0, 0⟩, ⟨0, 0, 1⟩⟩ scene).2 = ⟨0, 0, 0⟩ ∧
    (RayCast.nearest ⟨⟨0, 0, 0⟩, ⟨0, 0, 1⟩⟩ []).2 = ⟨0, 0, 0⟩ :=
  C4_miss_background ⟨⟨0, 0, 0⟩, ⟨0, 0, 1⟩⟩ scene
    (by
      intro k hk t h
      have e := h.1
      simp only [scene, List.mem_cons, List.mem_singleton, List.not_mem_nil, or_false] at hk
      rcases hk with rfl | rfl | rfl | rfl <;>
        norm_num [Point.add_def, Point.sub_def, Triangle.intersect, Triangle.getNormal, dot, cross, first, second, third,
          forth] at e <;>
        cases e)


/-! ## `Triangle::intersect` in the exact model -/

/-- `Triangle::intersect` returns `true` with `t` exactly when the near-parallel test does
not reject, `t` is the quotient it computes and `t` is not negative. -/
theorem intersect_eq_some_iff (k : Triangle) (ray : Ray) (t : ℚ) :
    k.intersect ray = some t ↔
      ¬ (0 ≤ dot k.getNormal ray.R ∧ dot k.getNormal ray.R < 13743895 / 137438953472) ∧
      t = (dot k.getNormal ray.O + dot k.getNormal k.a) / dot k.getNormal ray.R ∧
      0 ≤ t := by
  unfold Triangle.intersect
  simp only [ge_iff_le]
  split_ifs with h1 h2
  · constructor
    · intro h
      cases h
    · rintro ⟨hg, _⟩
      exact absurd h1 hg
  · constructor
    · intro h
      cases h
    · rintro ⟨_, rfl, h3⟩
      exact absurd h3 (not_le.mpr h2)
  · constructor
    · intro h
      have h' := Option.some.inj h
      exact ⟨h1, h'.symm, h' ▸ not_lt.mp h2⟩
    · rintro ⟨_, rfl, _⟩
      rfl

/-- The divisor of `Triangle::intersect` is not zero once the near-parallel test has not
rejected. -/
theorem divisor_ne_zero {d : ℚ} (h : ¬ (0 ≤ d ∧ d < 13743895 / 137438953472)) : d ≠ 0 := by
  rintro rfl
  exact h ⟨le_refl _, by norm_num⟩

/-- The point returned by `Triangle::intersect` misses the plane of the triangle by twice
`dot(normal, ray.O)`: the quotient adds `dot(normal, O)` to `D` where the plane equation
subtracts it. -/
theorem intersect_plane_defect (k : Triangle) (ray : Ray) (t : ℚ)
    (h : k.intersect ray = some t) :
    dot k.getNormal (ray.compute t - k.a) = 2 * dot k.getNormal ray.O := by
  obtain ⟨hg, ht, _⟩ := (intersect_eq_some_iff k ray t).mp h
  have hd := divisor_ne_zero hg
  have key : t * dot k.getNormal ray.R = dot k.getNormal ray.O + dot k.getNormal k.a := by
    rw [ht]
    field_simp
  simp only [dot, Ray.compute, smul, Point.add_def, Point.sub_def] at key ⊢
  linarith

/-- C5. With the origin at `(0,0,1)`, for every direction `(px, py, -1)`, `first.intersect`
returns `true` with `t = 2`, and the point `ray.compute(2) = (2px, 2py, -1)` is off the
plane `z = -3` of the triangle: `dot(normal, ray.compute(2) - a) = 8`, not `0`. -/
theorem C5_hit_point_off_plane (px py : ℚ) :
    first.intersect ⟨⟨0, 0, 1⟩, ⟨px, py, -1⟩⟩ = some 2 ∧
    (⟨⟨0, 0, 1⟩, ⟨px, py, -1⟩⟩ : Ray).compute 2 = ⟨px * 2, py * 2, -1⟩ ∧
    dot first.getNormal ((⟨⟨0, 0, 1⟩, ⟨px, py, -1⟩⟩ : Ray).compute 2 - first.a) = 8 := by
  refine ⟨?_, ?_, ?_⟩ <;>
    norm_num [Point.add_def, Point.sub_def, Triangle.intersect, Triangle.getNormal, Ray.compute,
      dot, cross, smul, first]

/-! ## `Triangle::isInside` in the exact model -/

/-- `Triangle::isInside` returns `true` exactly when none of its three tests is negative. -/
theorem isInside_iff (k : Triangle) (p : Point) :
    k.isInside p = true ↔
      0 ≤ dot k.getNormal (cross (k.a - k.c) (p - k.c)) ∧
      0 ≤ dot k.getNormal (cross (k.b - k.a) (p - k.a)) ∧
      0 ≤ dot k.getNormal (cross (k.c - k.b) (p - k.b)) := by
  unfold Triangle.isInside
  simp only []
  split_ifs with h0 h1 h2
  · constructor
    · intro h
      cases h
    · rintro ⟨g0, _, _⟩
      exact absurd g0 (not_le.mpr h0)
  · constructor
    · intro h
      cases h
    · rintro ⟨_, g1, _⟩
      exact absurd g1 (not_le.mpr h1)
  · constructor
    · intro h
      cases h
    · rintro ⟨_, _, g2⟩
      exact absurd g2 (not_le.mpr h2)
  · exact ⟨fun _ => ⟨not_lt.mp h0, not_lt.mp h1, not_lt.mp h2⟩, fun _ => rfl⟩

/-- A vector other than zero has a positive squared length. -/
theorem dot_self_pos (n : Point) (h : n ≠ ⟨0, 0, 0⟩) : 0 < dot n n := by
  obtain ⟨x, y, z⟩ := n
  simp only [dot]
  by_contra hle
  have hx : x = 0 := by nlinarith [mul_self_nonneg x, mul_self_nonneg y, mul_self_nonneg z]
  have hy : y = 0 := by nlinarith [mul_self_nonneg x, mul_self_nonneg y, mul_self_nonneg z]
  have hz : z = 0 := by nlinarith [mul_self_nonneg x, mul_self_nonneg y, mul_self_nonneg z]
  exact h (by rw [hx, hy, hz])

/-- The three tests of `isInside` add up to the squared length of the normal. -/
theorem tests_sum (k : Triangle) (p : Point) :
    dot k.getNormal (cross (k.a - k.c) (p - k.c)) +
      dot k.getNormal (cross (k.b - k.a) (p - k.a)) +
      dot k.getNormal (cross (k.c - k.b) (p - k.b)) = dot k.getNormal k.getNormal := by
  obtain ⟨⟨a1, a2, a3⟩, ⟨b1, b2, b3⟩, ⟨c1, c2, c3⟩, col⟩ := k
  obtain ⟨p1, p2, p3⟩ := p
  simp only [Triangle.getNormal, cross, dot, Point.sub_def]
  ring

/-- For a point of the plane the three tests are its barycentric coordinates scaled by
the squared length of the normal. -/
theorem tests_barycentric (k : Triangle) (p : Point)
    (hp : dot k.getNormal (p - k.a) = 0) :
    smul (dot k.getNormal k.getNormal) p =
      smul (dot k.getNormal (cross (k.c - k.b) (p - k.b))) k.a +
      smul (dot k.getNormal (cross (k.a - k.c) (p - k.c))) k.b +
      smul (dot k.getNormal (cross (k.b - k.a) (p - k.a))) k.c := by
  obtain ⟨⟨a1, a2, a3⟩, ⟨b1, b2, b3⟩, ⟨c1, c2, c3⟩, col⟩ := k
  obtain ⟨p1, p2, p3⟩ := p
  simp only [Triangle.getNormal, cross, dot, Point.sub_def, smul, Point.add_def,
    Point.mk.injEq] at hp ⊢
  refine ⟨?_, ?_, ?_⟩
  · linear_combination ((a2 - c2) * (b3 - c3) - (a3 - c3) * (b2 - c2)) * hp
  · linear_combination ((b1 - c1) * (a3 - c3) - (a1 - c1) * (b3 - c3)) * hp
  · linear_combination ((a1 - c1) * (b2 - c2) - (a2 - c2) * (b1 - c1)) * hp

/-- At a barycentric combination the three tests are the weights times the squared length
of the normal. -/
theorem tests_of_combination (k : Triangle) (α β γ : ℚ) (hsum : α + β + γ = 1) :
    dot k.getNormal (cross (k.a - k.c) (smul α k.a + smul β k.b + smul γ k.c - k.c)) =
      β * dot k.getNormal k.getNormal ∧
    dot k.getNormal (cross (k.b - k.a) (smul α k.a + smul β k.b + smul γ k.c - k.a)) =
      γ * dot k.getNormal k.getNormal ∧
    dot k.getNormal (cross (k.c - k.b) (smul α k.a + smul β k.b + smul γ k.c - k.b)) =
      α * dot k.getNormal k.getNormal := by
  obtain ⟨⟨a1, a2, a3⟩, ⟨b1, b2, b3⟩, ⟨c1, c2, c3⟩, col⟩ := k
  have hα : α = 1 - β - γ := by linarith
  subst hα
  simp only [Triangle.getNormal, cross, dot, Point.sub_def, smul, Point.add_def]
  refine ⟨?_, ?_, ?_⟩ <;> ring

/-- In the exact model `isInside` classifies the points of the plane: for a triangle whose
normal is not zero and a point `p` with `dot(normal, p - a) = 0`, `isInside(p)` is `true`
if and only if `p` belongs to the closed triangle. -/
theorem isInside_iff_closed_triangle (k : Triangle) (p : Point)
    (hn : k.getNormal ≠ ⟨0, 0, 0⟩) (hp : dot k.getNormal (p - k.a) = 0) :
    k.isInside p = true ↔ InClosedTriangle k p := by
  have hN := dot_self_pos k.getNormal hn
  rw [isInside_iff]
  constructor
  · rintro ⟨h0, h1, h2⟩
    have hs := tests_sum k p
    have hb := tests_barycentric k p hp
    refine ⟨dot k.getNormal (cross (k.c - k.b) (p - k.b)) / dot k.getNormal k.getNormal,
      dot k.getNormal (cross (k.a - k.c) (p - k.c)) / dot k.getNormal k.getNormal,
      dot k.getNormal (cross (k.b - k.a) (p - k.a)) / dot k.getNormal k.getNormal,
      div_nonneg h2 hN.le, div_nonneg h0 hN.le, div_nonneg h1 hN.le, ?_, ?_⟩
    · rw [← add_div, ← add_div, div_eq_one_iff_eq hN.ne']
      linarith
    · obtain ⟨p1, p2, p3⟩ := p
      simp only [smul, Point.add_def, Point.mk.injEq] at hb ⊢
      obtain ⟨e1, e2, e3⟩ := hb
      refine ⟨?_, ?_, ?_⟩
      · refine ((mul_div_cancel_right₀ p1 hN.ne').symm.trans (congrArg (· / _) e1)).trans ?_
        ring
      · refine ((mul_div_cancel_right₀ p2 hN.ne').symm.trans (congrArg (· / _) e2)).trans ?_
        ring
      · refine ((mul_div_cancel_right₀ p3 hN.ne').symm.trans (congrArg (· / _) e3)).trans ?_
        ring
  · rintro ⟨α, β, γ, hα, hβ, hγ, hsum, rfl⟩
    obtain ⟨t0, t1, t2⟩ := tests_of_combination k α β γ hsum
    rw [t0, t1, t2]
    exact ⟨mul_nonneg hβ hN.le, mul_nonneg hγ hN.le, mul_nonneg hα hN.le⟩


/-- The centroid is the barycentric combination with three weights `1/3`. -/
theorem centroid_eq (k : Triangle) :
    centroid k = smul (1 / 3) k.a + smul (1 / 3) k.b + smul (1 / 3) k.c := by
  simp only [centroid, smul, Point.add_def, Point.mk.injEq]
  refine ⟨?_, ?_, ?_⟩ <;> ring

/-- The centroid passes `Triangle::isInside`. -/
theorem isInside_centroid (k : Triangle) : k.isInside (centroid k) = true := by
  rw [isInside_iff, centroid_eq]
  obtain ⟨t0, t1, t2⟩ := tests_of_combination k (1 / 3) (1 / 3) (1 / 3) (by norm_num)
  rw [t0, t1, t2]
  have hN : 0 ≤ dot k.getNormal k.getNormal := by
    simp only [dot]
    nlinarith [mul_self_nonneg k.getNormal.x, mul_self_nonneg k.getNormal.y,
      mul_self_nonneg k.getNormal.z]
  have h3 : 0 ≤ 1 / 3 * dot k.getNormal k.getNormal := mul_nonneg (by norm_num) hN
  exact ⟨h3, h3, h3⟩

/-- The centroid lies on the plane of the triangle. -/
theorem dot_normal_centroid (k : Triangle) :
    dot k.getNormal (centroid k) = dot k.getNormal k.a := by
  obtain ⟨⟨a1, a2, a3⟩, ⟨b1, b2, b3⟩, ⟨c1, c2, c3⟩, col⟩ := k
  simp only [Triangle.getNormal, centroid, cross, dot, smul, Point.add_def, Point.sub_def]
  ring

/-- In the exact model a ray from the origin aimed at the centroid hits: with
`centroid = s * R`, `0 < s < FLT_MAX` and `dot(normal, R)` outside the band of the
near-parallel test, `intersect` succeeds with `t = s`, `isInside` holds at
`ray.compute(t)` and the loop over the scene of that one triangle ends with its colour. -/
theorem centroid_ray_hits (k : Triangle) (R : Point) (s : ℚ)
    (_hn : k.getNormal ≠ ⟨0, 0, 0⟩) (hs : 0 < s) (hmax : s < FLT_MAX)
    (hg : centroid k = smul s R)
    (hd : ¬ (0 ≤ dot k.getNormal R ∧ dot k.getNormal R < 13743895 / 137438953472)) :
    k.intersect ⟨⟨0, 0, 0⟩, R⟩ = some s ∧
    k.isInside ((⟨⟨0, 0, 0⟩, R⟩ : Ray).compute s) = true ∧
    (RayCast.nearest ⟨⟨0, 0, 0⟩, R⟩ [k]).2 = k.col := by
  have hd0 : dot k.getNormal R ≠ 0 := divisor_ne_zero hd
  have hplane : s * dot k.getNormal R = dot k.getNormal k.a := by
    rw [← dot_normal_centroid k, hg]
    simp only [dot, smul]
    ring
  have hint : k.intersect ⟨⟨0, 0, 0⟩, R⟩ = some s := by
    rw [intersect_eq_some_iff]
    refine ⟨hd, ?_, hs.le⟩
    rw [eq_div_iff hd0, hplane]
    simp only [dot]
    ring
  have hpt : (⟨⟨0, 0, 0⟩, R⟩ : Ray).compute s = centroid k := by
    rw [hg]
    simp only [Ray.compute, smul, Point.add_def, zero_add]
  have hin : k.isInside ((⟨⟨0, 0, 0⟩, R⟩ : Ray).compute s) = true := by
    rw [hpt]
    exact isInside_centroid k
  refine ⟨hint, hin, ?_⟩
  unfold RayCast.nearest
  rw [List.foldl_cons, List.foldl_nil, body_of_hits ⟨hint, hin⟩, if_pos hmax]

/-! ## The image buffer -/

/-- Reading a cell after an assignment `data[i][j] = v`. -/
theorem read_write (data : Image) (i j : Nat) (v : Point) (i' j' : Nat) :
    Image.read (Image.write data i j v) i' j' =
      if i' = i ∧ j' = j then (Image.read data i j).map (fun _ => v)
      else Image.read data i' j' := by
  unfold Image.read Image.write
  rw [List.getElem?_set, List.getD_eq_getElem?_getD]
  by_cases hi : i = i'
  · subst hi
    by_cases hlen : i < data.length
    · rw [if_pos rfl, if_pos hlen, List.getElem?_eq_getElem hlen]
      simp only [Option.getD_some, Option.some_bind, List.getElem?_set, true_and]
      by_cases hj : j = j'
      · subst hj
        rw [if_pos rfl, if_pos rfl]
        by_cases hl2 : j < (data[i]).length
        · rw [if_pos hl2, List.getElem?_eq_getElem hl2]
          rfl
        · rw [if_neg hl2, List.getElem?_eq_none (not_lt.mp hl2)]
          rfl
      · rw [if_neg hj, if_neg (fun h => hj h.symm)]
    · rw [if_pos rfl, if_neg hlen, List.getElem?_eq_none (not_lt.mp hlen)]
      simp
  · rw [if_neg hi, if_neg (fun h => hi h.1.symm)]

/-- Reading a cell after the loop over the columns `0 .. w-1` of row `i`. -/
theorem read_row_loop (f : Nat → Point) (i : Nat) (data : Image) (i' j' : Nat) (w : Nat) :
    Image.read ((List.range w).foldl (fun d j => Image.write d i j (f j)) data) i' j' =
      if i' = i ∧ j' < w then (Image.read data i' j').map (fun _ => f j')
      else Image.read data i' j' := by
  induction w with
  | zero => simp
  | succ w ih =>
    rw [List.range_succ, List.foldl_append, List.foldl_cons, List.foldl_nil, read_write]
    by_cases h1 : i' = i ∧ j' = w
    · obtain ⟨rfl, rfl⟩ := h1
      rw [if_pos ⟨rfl, rfl⟩, if_pos ⟨rfl, Nat.lt_succ_self _⟩, ih,
        if_neg (fun h => Nat.lt_irrefl _ h.2)]
    · rw [if_neg h1, ih]
      by_cases h2 : i' = i ∧ j' < w
      · rw [if_pos h2, if_pos ⟨h2.1, Nat.lt_succ_of_lt h2.2⟩]
      · rw [if_neg h2, if_neg]
        rintro ⟨h3, h4⟩
        rcases Nat.lt_succ_iff_lt_or_eq.mp h4 with h5 | h5
        · exact h2 ⟨h3, h5⟩
        · exact h1 ⟨h3, h5⟩

/-- Reading a cell after the two nested loops over `h` rows and `w` columns. -/
theorem read_loops (f : Nat → Nat → Point) (w : Nat) (data : Image) (i' j' : Nat) (h : Nat) :
    Image.read ((List.range h).foldl
        (fun d i => (List.range w).foldl (fun d j => Image.write d i j (f i j)) d) data)
        i' j' =
      if i' < h ∧ j' < w then (Image.read data i' j').map (fun _ => f i' j')
      else Image.read data i' j' := by
  induction h with
  | zero => simp
  | succ h ih =>
    rw [List.range_succ, List.foldl_append, List.foldl_cons, List.foldl_nil,
      read_row_loop (f h) h, ih]
    by_cases h1 : i' = h ∧ j' < w
    · obtain ⟨rfl, hj⟩ := h1
      rw [if_pos ⟨rfl, hj⟩, if_neg (fun h => Nat.lt_irrefl _ h.1),
        if_pos ⟨Nat.lt_succ_self _, hj⟩]
    · rw [if_neg h1]
      by_cases h2 : i' < h ∧ j' < w
      · rw [if_pos h2, if_pos ⟨Nat.lt_succ_of_lt h2.1, h2.2⟩]
      · rw [if_neg h2, if_neg]
        rintro ⟨h3, h4⟩
        rcases Nat.lt_succ_iff_lt_or_eq.mp h3 with h5 | h5
        · exact h2 ⟨h5, h4⟩
        · exact h1 ⟨h5, h4⟩

/-- Every cell of the initial buffer exists and is black. -/
theorem read_replicate (h w : Nat) (v : Point) (i j : Nat) (hi : i < h) (hj : j < w) :
    Image.read (List.replicate h (List.replicate w v)) i j = some v := by
  unfold Image.read
  rw [List.getElem?_replicate, if_pos hi, Option.some_bind, List.getElem?_replicate,
    if_pos hj]

/-- Cell `[i][j]` of the image returned by `RayCast` holds the colour found for the ray
through pixel `(i,j)`. -/
theorem RayCast_read (m : CMath) (camera : PerspectiveCamera) (triangles : Scene)
    (i j : Nat) (hi : i < HEIGHT) (hj : j < WIDTH) :
    Image.read (RayCast m camera triangles) i j =
      some (RayCast.pixel m camera triangles i j) := by
  unfold RayCast
  rw [read_loops (fun i j => RayCast.pixel m camera triangles i j), if_pos ⟨hi, hj⟩,
    read_replicate _ _ _ _ _ hi hj]
  rfl


/-! ## The scene of `main` under the default camera -/

/-- With the default camera every ray starts at the origin and has third coordinate `-1`,
provided `sqrt(1)` is `1`. -/
theorem default_ray (m : CMath) (hsqrt : m.sqrt 1 = 1) (i j : Nat) :
    ConstructRayThroughPixel m {} i j =
      ⟨⟨0, 0, 0⟩, ⟨(ConstructRayThroughPixel m {} i j).R.x,
        (ConstructRayThroughPixel m {} i j).R.y, -1⟩⟩ := by
  have h1 : ((0 : ℚ) * 0 + 0 * 0 + -1 * -1) = 1 := by norm_num
  simp only [ConstructRayThroughPixel, PerspectiveCamera.getPos, PerspectiveCamera.getDir,
    normalize, Point.add_def, h1, hsqrt, Ray.mk.injEq, Point.mk.injEq, true_and, and_true]
  norm_num

/-- The first two coordinates of the ray through pixel `(i,j)` for the default camera. -/
theorem default_ray_xy (m : CMath) (i j : Nat) :
    (ConstructRayThroughPixel m {} i j).R.x =
      (2 * ((i : ℚ) + 1 / 2) / 1028 - 1) * m.tan (1647099 / 1048576 / 2) ∧
    (ConstructRayThroughPixel m {} i j).R.y =
      (1 - 2 * ((j : ℚ) + 1 / 2) / 1028) * m.tan (1647099 / 1048576 / 2) := by
  simp only [ConstructRayThroughPixel, PerspectiveCamera.getFov, PerspectiveCamera.getDir,
    normalize, Point.add_def, WIDTH, HEIGHT]
  constructor
  · push_cast
    ring
  · push_cast
    ring

/-- The loop over the scene of `main` for a ray from the origin along `(px, py, -1)`: the
four planes are met at `t = 3, 4, 7, 8`, in scene order, so the first triangle whose
`isInside` accepts its point gives the colour. -/
theorem scene_nearest (px py : ℚ) :
    (RayCast.nearest ⟨⟨0, 0, 0⟩, ⟨px, py, -1⟩⟩ scene).2 = silhouetteColour px py := by
  have c3 : (⟨⟨0, 0, 0⟩, ⟨px, py, -1⟩⟩ : Ray).compute 3 = ⟨3 * px, 3 * py, -3⟩ := by
    simp only [Ray.compute, smul, Point.add_def, Point.mk.injEq]
    refine ⟨?_, ?_, ?_⟩ <;> ring
  have c4 : (⟨⟨0, 0, 0⟩, ⟨px, py, -1⟩⟩ : Ray).compute 4 = ⟨4 * px, 4 * py, -4⟩ := by
    simp only [Ray.compute, smul, Point.add_def, Point.mk.injEq]
    refine ⟨?_, ?_, ?_⟩ <;> ring
  have c7 : (⟨⟨0, 0, 0⟩, ⟨px, py, -1⟩⟩ : Ray).compute 7 = ⟨7 * px, 7 * py, -7⟩ := by
    simp only [Ray.compute, smul, Point.add_def, Point.mk.injEq]
    refine ⟨?_, ?_, ?_⟩ <;> ring
  have c8 : (⟨⟨0, 0, 0⟩, ⟨px, py, -1⟩⟩ : Ray).compute 8 = ⟨8 * px, 8 * py, -8⟩ := by
    simp only [Ray.compute, smul, Point.add_def, Point.mk.injEq]
    refine ⟨?_, ?_, ?_⟩ <;> ring
  have m3 : (3 : ℚ) < FLT_MAX := by norm_num [FLT_MAX]
  have m4 : (4 : ℚ) < FLT_MAX := by norm_num [FLT_MAX]
  have m7 : (7 : ℚ) < FLT_MAX := by norm_num [FLT_MAX]
  have m8 : (8 : ℚ) < FLT_MAX := by norm_num [FLT_MAX]
  simp only [RayCast.nearest, scene, List.foldl_cons, List.foldl_nil, RayCast.body,
    first_intersect, second_intersect, third_intersect, forth_intersect, c3, c4, c7, c8,
    silhouetteColour, Triangle.getCol]
  cases first.isInside ⟨3 * px, 3 * py, -3⟩ <;>
    cases second.isInside ⟨4 * px, 4 * py, -4⟩ <;>
    cases third.isInside ⟨7 * px, 7 * py, -7⟩ <;>
    cases forth.isInside ⟨8 * px, 8 * py, -8⟩ <;>
    norm_num [m3, m4, m7, m8]

/-- C8. End to end on the scene of `main` with the default camera (and `sqrt(1) = 1`): for
every pixel `(i,j)` with `i, j < 1028` the ray starts at the origin with direction
`(Px, Py, -1)`, and cell `[i][j]` of the image holds the colour of `first` if
`(3Px, 3Py, -3)` passes its `isInside`, else of `second` if `(4Px, 4Py, -4)` passes its,
else of `third` if `(7Px, 7Py, -7)` passes its, else of `forth` if `(8Px, 8Py, -8)` passes
its, else `(0,0,0)`.  With `0 <= tan(fov/2) <= 1` the centre pixel `(514,514)` holds the
colour of `first`. -/
theorem C8_main_scene_end_to_end (m : CMath) (hsqrt : m.sqrt 1 = 1) :
    (∀ i j : Nat, i < 1028 → j < 1028 →
      (ConstructRayThroughPixel m {} i j).O = ⟨0, 0, 0⟩ ∧
      (ConstructRayThroughPixel m {} i j).R.z = -1 ∧
      Image.read (result m) i j =
        some (silhouetteColour (ConstructRayThroughPixel m {} i j).R.x
          (ConstructRayThroughPixel m {} i j).R.y)) ∧
    (0 ≤ m.tan (1647099 / 1048576 / 2) → m.tan (1647099 / 1048576 / 2) ≤ 1 →
      Image.read (result m) 514 514 = some first.col) := by
  have hcell : ∀ i j : Nat, i < 1028 → j < 1028 →
      Image.read (result m) i j =
        some (silhouetteColour (ConstructRayThroughPixel m {} i j).R.x
          (ConstructRayThroughPixel m {} i j).R.y) := by
    intro i j hi hj
    unfold result
    rw [RayCast_read m {} scene i j hi hj, RayCast.pixel, default_ray m hsqrt i j,
      scene_nearest]
  refine ⟨fun i j hi hj => ⟨?_, ?_, hcell i j hi hj⟩, ?_⟩
  · rw [default_ray m hsqrt i j]
  · rw [default_ray m hsqrt i j]
  · intro h0 h1
    rw [hcell 514 514 (by norm_num) (by norm_num)]
    obtain ⟨hx, hy⟩ := default_ray_xy m 514 514
    rw [hx, hy]
    have hin : first.isInside
        ⟨3 * ((2 * (((514 : Nat) : ℚ) + 1 / 2) / 1028 - 1) * m.tan (1647099 / 1048576 / 2)),
          3 * ((1 - 2 * (((514 : Nat) : ℚ) + 1 / 2) / 1028) * m.tan (1647099 / 1048576 / 2)),
          -3⟩ = true := by
      rw [isInside_iff]
      simp only [Triangle.getNormal, dot, cross, first, Point.sub_def]
      push_cast
      refine ⟨?_, ?_, ?_⟩ <;> nlinarith
    simp only [silhouetteColour, hin, if_true]

/-- Instance: both library functions constantly `1`. -/
theorem C8_main_scene_end_to_end_witness :
    (∀ i j : Nat, i < 1028 → j < 1028 →
      (ConstructRayThroughPixel ⟨fun _ => 1, fun _ => 1⟩ {} i j).O = ⟨0, 0, 0⟩ ∧
      (ConstructRayThroughPixel ⟨fun _ => 1, fun _ => 1⟩ {} i j).R.z = -1 ∧
      Image.read (result ⟨fun _ => 1, fun _ => 1⟩) i j =
        some (silhouetteColour (ConstructRayThroughPixel ⟨fun _ => 1, fun _ => 1⟩ {} i j).R.x
          (ConstructRayThroughPixel ⟨fun _ => 1, fun _ => 1⟩ {} i j).R.y)) ∧
    Image.read (result ⟨fun _ => 1, fun _ => 1⟩) 514 514 = some first.col :=
  have h := C8_main_scene_end_to_end ⟨fun _ => 1, fun _ => 1⟩ rfl
  ⟨h.1, h.2 (by norm_num) (by norm_num)⟩


/-! ## The vector algebra in the exact model -/

/-- In the exact model `cross(u,v)` is orthogonal to both arguments. -/
theorem cross_orthogonal (u v : Point) :
    dot (cross u v) u = 0 ∧ dot (cross u v) v = 0 := by
  simp only [cross, dot]
  constructor <;> ring

/-! ## Claims on the initial `t_min`, degenerate triangles and the divisor -/

/-- C16. A hit at `t = FLT_MAX` is lost: for the triangle in the plane `z = -16777215`
and the ray from the origin along `(0, 0, -2^(-104))`, `intersect` returns `true` with
`t = FLT_MAX`, `isInside` holds at `ray.compute(t)`, and the loop over the scene of that
one triangle ends with the background `(0,0,0)`, not with the colour `(1,1,0)` of the
triangle. -/
theorem C16_hit_at_flt_max_is_background :
    (⟨⟨0, 1, -16777215⟩, ⟨-1, -1, -16777215⟩, ⟨1, -1, -16777215⟩, ⟨1, 1, 0⟩⟩ :
        Triangle).intersect ⟨⟨0, 0, 0⟩, ⟨0, 0, -(1 / 2 ^ 104)⟩⟩ = some FLT_MAX ∧
    (⟨⟨0, 1, -16777215⟩, ⟨-1, -1, -16777215⟩, ⟨1, -1, -16777215⟩, ⟨1, 1, 0⟩⟩ :
        Triangle).isInside
      ((⟨⟨0, 0, 0⟩, ⟨0, 0, -(1 / 2 ^ 104)⟩⟩ : Ray).compute FLT_MAX) = true ∧
    (RayCast.nearest ⟨⟨0, 0, 0⟩, ⟨0, 0, -(1 / 2 ^ 104)⟩⟩
      [⟨⟨0, 1, -16777215⟩, ⟨-1, -1, -16777215⟩, ⟨1, -1, -16777215⟩, ⟨1, 1, 0⟩⟩]).2 =
      ⟨0, 0, 0⟩ := by
  have hi : (⟨⟨0, 1, -16777215⟩, ⟨-1, -1, -16777215⟩, ⟨1, -1, -16777215⟩, ⟨1, 1, 0⟩⟩ :
      Triangle).intersect ⟨⟨0, 0, 0⟩, ⟨0, 0, -(1 / 2 ^ 104)⟩⟩ = some FLT_MAX := by
    norm_num [Point.add_def, Point.sub_def, Triangle.intersect, Triangle.getNormal, dot,
      cross, FLT_MAX]
  have hin : (⟨⟨0, 1, -16777215⟩, ⟨-1, -1, -16777215⟩, ⟨1, -1, -16777215⟩, ⟨1, 1, 0⟩⟩ :
      Triangle).isInside
      ((⟨⟨0, 0, 0⟩, ⟨0, 0, -(1 / 2 ^ 104)⟩⟩ : Ray).compute FLT_MAX) = true := by
    norm_num [Point.add_def, Point.sub_def, Triangle.isInside, Triangle.getNormal,
      Ray.compute, dot, cross, smul, FLT_MAX]
  refine ⟨hi, hin, ?_⟩
  unfold RayCast.nearest
  rw [List.foldl_cons, List.foldl_nil, body_of_hits ⟨hi, hin⟩, if_neg (lt_irrefl _)]

/-- The normal of a triangle with collinear vertices is the zero vector. -/
theorem normal_of_collinear (k : Triangle) (h : Collinear k.a k.b k.c) :
    k.getNormal = ⟨0, 0, 0⟩ := by
  obtain ⟨p, d, s1, s2, s3, ha, hb, hc⟩ := h
  obtain ⟨a, b, c, col⟩ := k
  simp only at ha hb hc
  subst ha hb hc
  simp only [Triangle.getNormal, cross, smul, Point.add_def, Point.sub_def, Point.mk.injEq]
  refine ⟨?_, ?_, ?_⟩ <;> ring

/-- With a zero normal the near-parallel test of `intersect` rejects every ray. -/
theorem intersect_of_normal_zero (k : Triangle) (h : k.getNormal = ⟨0, 0, 0⟩) (ray : Ray) :
    k.intersect ray = none := by
  unfold Triangle.intersect
  simp only [h, dot, zero_mul, add_zero, ge_iff_le]
  rw [if_pos ⟨le_refl _, by norm_num⟩]

/-- C18. The division of `Triangle::intersect` is never by zero: the run with the
division checked never reports a zero divisor and returns what `intersect` returns; once
the near-parallel test has not rejected, the divisor `dot(normal, ray.R)` is not zero. -/
theorem C18_divisor_never_zero (k : Triangle) (ray : Ray) :
    k.intersectChecked ray = some (k.intersect ray) ∧
    (¬ (dot k.getNormal ray.R ≥ 0 ∧ dot k.getNormal ray.R < 13743895 / 137438953472) →
      dot k.getNormal ray.R ≠ 0) := by
  refine ⟨?_, fun hg => divisor_ne_zero hg⟩
  unfold Triangle.intersectChecked Triangle.intersect
  simp only []
  split_ifs with h1 h2
  · rfl
  · have hd : dot k.getNormal ray.R ≠ 0 := divisor_ne_zero h1
    simp only [checkedDiv, if_neg hd, if_pos h2]
  · have hd : dot k.getNormal ray.R ≠ 0 := divisor_ne_zero h1
    simp only [checkedDiv, if_neg hd, if_neg h2]


/-! ## The winding of a triangle in the exact model -/

/-- The normal of the reversed triangle is the opposite of the normal. -/
theorem reversed_normal (k : Triangle) :
    k.reversed.getNormal = ⟨-k.getNormal.x, -k.getNormal.y, -k.getNormal.z⟩ := by
  simp only [Triangle.reversed, Triangle.getNormal, cross, Point.sub_def, Point.mk.injEq]
  refine ⟨?_, ?_, ?_⟩ <;> ring

/-- The divisor of `intersect` for the reversed triangle is the opposite divisor. -/
theorem reversed_divisor (k : Triangle) (R : Point) :
    dot k.reversed.getNormal R = -dot k.getNormal R := by
  rw [reversed_normal]
  simp only [dot]
  ring

/-- The first two vertices have the same dot product with the normal, so the constant `D`
of `intersect` is the same number for the vertex `b`. -/
theorem normal_dot_b (k : Triangle) : dot k.getNormal k.reversed.a = dot k.getNormal k.a := by
  obtain ⟨⟨a1, a2, a3⟩, ⟨b1, b2, b3⟩, ⟨c1, c2, c3⟩, col⟩ := k
  simp only [Triangle.reversed, Triangle.getNormal, cross, dot, Point.sub_def]
  ring

/-- The three tests of `isInside` for the reversed triangle are those of the triangle, in
another order. -/
theorem reversed_tests (k : Triangle) (p : Point) :
    dot k.reversed.getNormal (cross (k.reversed.a - k.reversed.c) (p - k.reversed.c)) =
      dot k.getNormal (cross (k.c - k.b) (p - k.b)) ∧
    dot k.reversed.getNormal (cross (k.reversed.b - k.reversed.a) (p - k.reversed.a)) =
      dot k.getNormal (cross (k.b - k.a) (p - k.a)) ∧
    dot k.reversed.getNormal (cross (k.reversed.c - k.reversed.b) (p - k.reversed.b)) =
      dot k.getNormal (cross (k.a - k.c) (p - k.c)) := by
  obtain ⟨⟨a1, a2, a3⟩, ⟨b1, b2, b3⟩, ⟨c1, c2, c3⟩, col⟩ := k
  obtain ⟨p1, p2, p3⟩ := p
  simp only [Triangle.reversed, Triangle.getNormal, cross, dot, Point.sub_def]
  refine ⟨?_, ?_, ?_⟩ <;> ring

/-- The reversed triangle passes `isInside` at the same points. -/
theorem reversed_isInside (k : Triangle) (p : Point) :
    k.reversed.isInside p = k.isInside p := by
  rw [Bool.eq_iff_iff, isInside_iff, isInside_iff]
  obtain ⟨t0, t1, t2⟩ := reversed_tests k p
  rw [t0, t1, t2]
  constructor
  · rintro ⟨h2, h1, h0⟩
    exact ⟨h0, h1, h2⟩
  · rintro ⟨h0, h1, h2⟩
    exact ⟨h2, h1, h0⟩

/-- Away from the near-parallel band on both sides, the reversed triangle gives the same
outcome of `intersect`. -/
theorem reversed_intersect (k : Triangle) (ray : Ray)
    (hd : 13743895 / 137438953472 ≤ |dot k.getNormal ray.R|) :
    k.reversed.intersect ray = k.intersect ray := by
  have hg : ¬ (0 ≤ dot k.getNormal ray.R ∧ dot k.getNormal ray.R < 13743895 / 137438953472) := by
    rintro ⟨h0, h1⟩
    rw [abs_of_nonneg h0] at hd
    exact absurd hd (not_le.mpr h1)
  have hg' : ¬ (0 ≤ -dot k.getNormal ray.R ∧ -dot k.getNormal ray.R < 13743895 / 137438953472) := by
    rintro ⟨h0, h1⟩
    rw [abs_of_nonpos (neg_nonneg.mp h0)] at hd
    exact absurd hd (not_le.mpr h1)
  have hq : (-dot k.getNormal ray.O + -dot k.getNormal k.a) / -dot k.getNormal ray.R =
      (dot k.getNormal ray.O + dot k.getNormal k.a) / dot k.getNormal ray.R := by
    rw [← neg_add, neg_div_neg_eq]
  unfold Triangle.intersect
  simp only [ge_iff_le, reversed_divisor, normal_dot_b, if_neg hg, if_neg hg', hq]

/-! ## Claims on the image returned by `RayCast` -/

/-- An assignment `data[i][j] = v` keeps the number of rows and the length of every row. -/
theorem write_dims (h w : Nat) (data : Image) (i j : Nat) (v : Point)
    (hd : data.length = h ∧ ∀ row ∈ data, row.length = w) :
    (Image.write data i j v).length = h ∧ ∀ row ∈ Image.write data i j v, row.length = w := by
  obtain ⟨hlen, hrows⟩ := hd
  unfold Image.write
  refine ⟨by rw [List.length_set, hlen], ?_⟩
  intro row hrow
  by_cases hi : i < data.length
  · rcases List.mem_or_eq_of_mem_set hrow with hmem | heq
    · exact hrows row hmem
    · rw [heq, List.length_set, List.getD_eq_getElem?_getD, List.getElem?_eq_getElem hi,
        Option.getD_some]
      exact hrows _ (List.getElem_mem hi)
  · rw [List.set_eq_of_length_le (not_lt.mp hi)] at hrow
    exact hrows row hrow

/-- A loop whose body keeps a property of the buffer keeps it. -/
theorem foldl_keeps {α : Type} (P : Image → Prop) (step : Image → α → Image)
    (hstep : ∀ d a, P d → P (step d a)) (l : List α) :
    ∀ d, P d → P (l.foldl step d) := by
  induction l with
  | nil => exact fun d hd => hd
  | cons a l ih => exact fun d hd => ih (step d a) (hstep d a hd)

/-- C11. Image dimensions: for every camera and every scene, the empty one included,
`RayCast` returns an image of exactly `HEIGHT` rows, each of exactly `WIDTH` cells. -/
theorem C11_image_dimensions (m : CMath) (camera : PerspectiveCamera) (triangles : Scene) :
    ((RayCast m camera triangles).length = HEIGHT ∧
      ∀ row ∈ RayCast m camera triangles, row.length = WIDTH) ∧
    ((RayCast m camera []).length = HEIGHT ∧
      ∀ row ∈ RayCast m camera [], row.length = WIDTH) := by
  have key : ∀ s : Scene, (RayCast m camera s).length = HEIGHT ∧
      ∀ row ∈ RayCast m camera s, row.length = WIDTH := by
    intro s
    unfold RayCast
    apply foldl_keeps (fun d => d.length = HEIGHT ∧ ∀ row ∈ d, row.length = WIDTH)
    · intro d i hd
      apply foldl_keeps (fun d => d.length = HEIGHT ∧ ∀ row ∈ d, row.length = WIDTH)
      · intro d' j hd'
        exact write_dims HEIGHT WIDTH d' i j _ hd'
      · exact hd
    · refine ⟨List.length_replicate _ _, ?_⟩
      intro row hrow
      rw [List.eq_of_mem_replicate hrow, List.length_replicate]
  exact ⟨key triangles, key []⟩


/-- Row `n` of the buffer after an assignment `data[i][j] = v`. -/
theorem write_row (data : Image) (i j : Nat) (v : Point) (n : Nat) :
    (Image.write data i j v)[n]? =
      if n = i then (data[n]?).map (fun r => r.set j v) else data[n]? := by
  unfold Image.write
  rw [List.getElem?_set, List.getD_eq_getElem?_getD]
  by_cases hi : i = n
  · subst hi
    rw [if_pos rfl, if_pos rfl]
    by_cases hlen : i < data.length
    · rw [if_pos hlen, List.getElem?_eq_getElem hlen]
      rfl
    · rw [if_neg hlen, List.getElem?_eq_none (not_lt.mp hlen)]
      rfl
  · rw [if_neg hi, if_neg (fun h => hi h.symm)]

/-- Two assignments commute when they go to different cells or write the same value. -/
theorem write_comm (data : Image) (i j i' j' : Nat) (v v' : Point)
    (h : (i, j) ≠ (i', j') ∨ v = v') :
    Image.write (Image.write data i j v) i' j' v' =
      Image.write (Image.write data i' j' v') i j v := by
  apply List.ext_getElem?
  intro n
  simp only [write_row]
  by_cases h1 : n = i <;> by_cases h2 : n = i'
  · simp only [if_pos h1, if_pos h2, Option.map_map]
    congr 1
    funext r
    simp only [Function.comp]
    by_cases hj : j = j'
    · have hv : v = v' := by
        rcases h with hne | hv
        · exact absurd (by rw [← h1, ← h2, hj]) hne
        · exact hv
      rw [hj, hv]
    · exact List.set_comm v v' r hj
  · simp only [if_pos h1, if_neg h2]
  · simp only [if_neg h1, if_pos h2]
  · simp only [if_neg h1, if_neg h2]

/-- A loop over a concatenation of blocks is the loop over the blocks of the loops over
each block. -/
theorem foldl_flatMap_eq {α β γ : Type} (f : γ → β → γ) (g : α → List β) (l : List α) :
    ∀ b : γ, (l.flatMap g).foldl f b = l.foldl (fun b a => (g a).foldl f b) b := by
  induction l with
  | nil => exact fun b => rfl
  | cons a l ih =>
    intro b
    rw [List.flatMap_cons, List.foldl_append, List.foldl_cons, ih]

/-- The two nested loops of `RayCast` make the assignments in the order `RayCast.order`. -/
theorem RayCast_eq_along (m : CMath) (camera : PerspectiveCamera) (triangles : Scene) :
    RayCast m camera triangles = RayCast.along m camera triangles RayCast.order := by
  unfold RayCast RayCast.along RayCast.order
  rw [foldl_flatMap_eq]
  simp only [List.foldl_map]

/-- Processing the pixels in another order gives the same image. -/
theorem along_perm (m : CMath) (camera : PerspectiveCamera) (triangles : Scene)
    (l1 l2 : List (Nat × Nat)) (hperm : l1.Perm l2) :
    RayCast.along m camera triangles l1 = RayCast.along m camera triangles l2 := by
  unfold RayCast.along
  exact @List.Perm.foldl_eq _ _ _ _ _
    ⟨fun d p q => write_comm d p.1 p.2 q.1 q.2 _ _ (by
      by_cases hpq : p = q
      · right
        rw [hpq]
      · left
        exact hpq)⟩ hperm _

/-- The order of the loops names every pixel of the image, and no other. -/
theorem mem_order (p : Nat × Nat) : p ∈ RayCast.order ↔ p.1 < HEIGHT ∧ p.2 < WIDTH := by
  unfold RayCast.order
  simp only [List.mem_flatMap, List.mem_map, List.mem_range]
  constructor
  · rintro ⟨i, hi, j, hj, rfl⟩
    exact ⟨hi, hj⟩
  · rintro ⟨hi, hj⟩
    exact ⟨p.1, hi, p.2, hj, rfl⟩

/-- The order of the loops names no pixel twice. -/
theorem nodup_order : RayCast.order.Nodup := by
  unfold RayCast.order
  rw [List.nodup_flatMap]
  constructor
  · intro i _
    exact (List.nodup_range WIDTH).map (fun a b hab => (Prod.mk.inj hab).2)
  · apply (List.nodup_range HEIGHT).pairwise_of_forall_ne
    intro a _ b _ hab p hpa hpb
    obtain ⟨_, _, rfl⟩ := List.mem_map.mp hpa
    obtain ⟨_, _, hb⟩ := List.mem_map.mp hpb
    exact hab (Prod.mk.inj hb).1.symm

/-- C12. Pixel independence: for `i < HEIGHT` and `j < WIDTH`, cell `[i][j]` of the image
returned by `RayCast` is the colour the nearest-hit loop finds for
`ConstructRayThroughPixel(camera, i, j)` and the scene; the image is the same when the
pixels are processed in any other order; and the loops assign every cell of the image,
none twice and none outside it. -/
theorem C12_pixel_independence (m : CMath) (camera : PerspectiveCamera)
    (triangles : Scene) :
    (∀ i j : Nat, i < HEIGHT → j < WIDTH →
      Image.read (RayCast m camera triangles) i j =
        some (RayCast.nearest (ConstructRayThroughPixel m camera i j) triangles).2) ∧
    RayCast m camera triangles = RayCast.along m camera triangles RayCast.order ∧
    (∀ pixels : List (Nat × Nat), pixels.Perm RayCast.order →
      RayCast.along m camera triangles pixels = RayCast m camera triangles) ∧
    RayCast.order.Nodup ∧
    (∀ p : Nat × Nat, p ∈ RayCast.order ↔ p.1 < HEIGHT ∧ p.2 < WIDTH) := by
  refine ⟨fun i j hi hj => RayCast_read m camera triangles i j hi hj,
    RayCast_eq_along m camera triangles, ?_, nodup_order, mem_order⟩
  intro pixels hperm
  exact (along_perm m camera triangles pixels RayCast.order hperm).trans
    (RayCast_eq_along m camera triangles).symm

/-! ## The binary32 model: arithmetic -/

namespace Binary32

/-- Zero is a binary32 number. -/
theorem rnd_zero : rnd 0 = F32.fin 0 := by decide!

/-- Rounding commutes with the change of sign. -/
theorem rnd_neg (q : ℚ) : rnd (-q) = fneg (rnd q) := by
  rcases lt_trichotomy q 0 with h | h | h
  · have h1 : ¬ (-q < 0) := by linarith
    unfold rnd
    simp only [abs_neg, h, h1, if_true, if_false, decide_True, decide_False]
    split_ifs <;> simp [fneg]
  · subst h
    rw [neg_zero, rnd_zero]
    simp [fneg]
  · have h1 : -q < 0 := by linarith
    have h2 : ¬ (q < 0) := by linarith
    unfold rnd
    simp only [abs_neg, h1, h2, if_true, if_false, decide_True, decide_False]
    split_ifs <;> simp [fneg]

/-- The opposite of the opposite. -/
theorem fneg_fneg (a : F32) : fneg (fneg a) = a := by
  cases a <;> simp [fneg]

/-- Addition is commutative. -/
theorem fadd_comm (a b : F32) : fadd a b = fadd b a := by
  cases a with
  | nan => cases b <;> rfl
  | inf s =>
    cases b with
    | nan => rfl
    | inf s' => cases s <;> cases s' <;> rfl
    | fin b => rfl
  | fin a =>
    cases b with
    | nan => rfl
    | inf s' => rfl
    | fin b =>
      show rnd (a + b) = rnd (b + a)
      rw [add_comm]

/-- Multiplication is commutative. -/
theorem fmul_comm (a b : F32) : fmul a b = fmul b a := by
  cases a with
  | nan => cases b <;> rfl
  | inf s =>
    cases b with
    | nan => rfl
    | inf s' => cases s <;> cases s' <;> rfl
    | fin b => rfl
  | fin a =>
    cases b with
    | nan => rfl
    | inf s' => rfl
    | fin b =>
      show rnd (a * b) = rnd (b * a)
      rw [mul_comm]

/-- The opposite of a sum is the sum of the opposites. -/
theorem fneg_fadd (a b : F32) : fneg (fadd a b) = fadd (fneg a) (fneg b) := by
  cases a with
  | nan => cases b <;> rfl
  | inf s =>
    cases b with
    | nan => rfl
    | inf s' => cases s <;> cases s' <;> rfl
    | fin b => rfl
  | fin a =>
    cases b with
    | nan => rfl
    | inf s' => rfl
    | fin b =>
      show fneg (rnd (a + b)) = rnd (-a + -b)
      rw [← rnd_neg, neg_add]

/-- Exchanging the operands of a subtraction changes the sign of the result. -/
theorem fsub_swap (a b : F32) : fsub a b = fneg (fsub b a) := by
  unfold fsub
  rw [fneg_fadd, fneg_fneg, fadd_comm]

/-- A product with an opposite factor is the opposite product. -/
theorem fmul_fneg (a b : F32) : fmul (fneg a) b = fneg (fmul a b) := by
  cases a with
  | nan => cases b <;> rfl
  | inf s =>
    cases b with
    | nan => rfl
    | inf s' => cases s <;> cases s' <;> rfl
    | fin b =>
      show (if b = 0 then F32.nan else F32.inf ((!s) != decide (b < 0))) =
        fneg (if b = 0 then F32.nan else F32.inf (s != decide (b < 0)))
      split_ifs
      · rfl
      · cases s <;> cases decide (b < 0) <;> rfl
  | fin a =>
    cases b with
    | nan => rfl
    | inf s' =>
      show (if -a = 0 then F32.nan else F32.inf (s' != decide (-a < 0))) =
        fneg (if a = 0 then F32.nan else F32.inf (s' != decide (a < 0)))
      by_cases h : a = 0
      · subst h
        simp [fneg]
      · rw [if_neg h, if_neg (neg_ne_zero.mpr h)]
        rcases lt_or_gt_of_ne h with h1 | h1
        · have h2 : ¬ (-a < 0) := by linarith
          cases s' <;> simp [fneg, h1, h2]
        · have h2 : -a < 0 := by linarith
          have h3 : ¬ (a < 0) := by linarith
          cases s' <;> simp [fneg, h2, h3]
    | fin b =>
      show rnd (-a * b) = fneg (rnd (a * b))
      rw [← rnd_neg, neg_mul]

/-- A value other than NaN is equal to itself. -/
theorem feq_self (a : F32) (h : a ≠ F32.nan) : feq a a = true := by
  cases a with
  | nan => exact absurd rfl h
  | inf s => simp [feq]
  | fin a => simp [feq]

/-- An exact difference. -/
theorem fsub_fin {a b : ℚ} (h : Rep (a - b)) : fsub (F32.fin a) (F32.fin b) = F32.fin (a - b) := by
  show rnd (a + -b) = F32.fin (a - b)
  rw [← sub_eq_add_neg]
  exact h

/-- An exact sum. -/
theorem fadd_fin {a b : ℚ} (h : Rep (a + b)) : fadd (F32.fin a) (F32.fin b) = F32.fin (a + b) :=
  h

/-- An exact product. -/
theorem fmul_fin {a b : ℚ} (h : Rep (a * b)) : fmul (F32.fin a) (F32.fin b) = F32.fin (a * b) :=
  h

/-- An exact quotient by a number other than zero. -/
theorem fdiv_fin {a b : ℚ} (hb : b ≠ 0) (h : Rep (a / b)) :
    fdiv (F32.fin a) (F32.fin b) = F32.fin (a / b) := by
  show (if b = 0 then (if a = 0 then F32.nan else F32.inf (decide (a < 0))) else rnd (a / b)) =
    F32.fin (a / b)
  rw [if_neg hb]
  exact h

/-! ## The binary32 model agrees with the exact model where nothing is rounded -/

theorem Point.fsub_def (u v : Point) :
    u - v = ⟨fsub u.x v.x, fsub u.y v.y, fsub u.z v.z⟩ := rfl

theorem Point.fadd_def (u v : Point) :
    u + v = ⟨fadd u.x v.x, fadd u.y v.y, fadd u.z v.z⟩ := rfl

/-- An exact difference of points. -/
theorem sub_ofExact {u v : RayTracing.Point} (h : ExactSub u v) :
    Point.ofExact u - Point.ofExact v = Point.ofExact (u - v) := by
  obtain ⟨h1, h2, h3⟩ := h
  simp only [Point.fsub_def, Point.ofExact, RayTracing.Point.sub_def, fsub_fin h1, fsub_fin h2,
    fsub_fin h3]

/-- An exact sum of points. -/
theorem add_ofExact {u v : RayTracing.Point} (h : ExactAdd u v) :
    Point.ofExact u + Point.ofExact v = Point.ofExact (u + v) := by
  obtain ⟨h1, h2, h3⟩ := h
  simp only [Point.fadd_def, Point.ofExact, RayTracing.Point.add_def, fadd_fin h1, fadd_fin h2,
    fadd_fin h3]

/-- An exact scalar multiple. -/
theorem smul_ofExact {c : ℚ} {u : RayTracing.Point} (h : ExactSmul c u) :
    smul (F32.fin c) (Point.ofExact u) = Point.ofExact (RayTracing.smul c u) := by
  obtain ⟨h1, h2, h3⟩ := h
  simp only [smul, Point.ofExact, RayTracing.smul, fmul_fin h1, fmul_fin h2, fmul_fin h3]

/-- An exact cross product. -/
theorem cross_ofExact {u v : RayTracing.Point} (h : ExactCross u v) :
    cross (Point.ofExact u) (Point.ofExact v) = Point.ofExact (RayTracing.cross u v) := by
  obtain ⟨⟨a1, a2, a3⟩, ⟨b1, b2, b3⟩, ⟨c1, c2, c3⟩⟩ := h
  simp only [cross, Point.ofExact, RayTracing.cross, fmul_fin a1, fmul_fin a2, fsub_fin a3,
    fmul_fin b1, fmul_fin b2, fsub_fin b3, fmul_fin c1, fmul_fin c2, fsub_fin c3]

/-- An exact dot product. -/
theorem dot_ofExact {u v : RayTracing.Point} (h : ExactDot u v) :
    dot (Point.ofExact u) (Point.ofExact v) = F32.fin (RayTracing.dot u v) := by
  obtain ⟨h1, h2, h3, h4, h5⟩ := h
  simp only [dot, Point.ofExact, RayTracing.dot, fmul_fin h1, fmul_fin h2, fmul_fin h3,
    fadd_fin h4, fadd_fin h5]

/-- An exact normal. -/
theorem getNormal_ofExact {k : RayTracing.Triangle} (h : ExactNormal k) :
    (Triangle.ofExact k).getNormal = Point.ofExact k.getNormal := by
  obtain ⟨h1, h2, h3⟩ := h
  simp only [Triangle.getNormal, Triangle.ofExact, RayTracing.Triangle.getNormal,
    sub_ofExact h1, sub_ofExact h2, cross_ofExact h3]

/-- Where nothing is rounded `intersect` returns what it returns in the exact model. -/
theorem intersect_ofExact {k : RayTracing.Triangle} {ray : RayTracing.Ray}
    (h : ExactIntersect k ray) :
    (Triangle.ofExact k).intersect (Ray.ofExact ray) = (k.intersect ray).map F32.fin := by
  obtain ⟨hn, hD, hd, hO, hs, hq⟩ := h
  have e1 : (Triangle.ofExact k).a = Point.ofExact k.a := rfl
  have e2 : (Ray.ofExact ray).R = Point.ofExact ray.R := rfl
  have e3 : (Ray.ofExact ray).O = Point.ofExact ray.O := rfl
  unfold Triangle.intersect RayTracing.Triangle.intersect
  simp only [getNormal_ofExact hn, e1, e2, e3, dot_ofExact hD, dot_ofExact hd, dot_ofExact hO,
    fadd_fin hs]
  have hguard : ∀ d e : ℚ,
      ((fge (F32.fin d) (F32.fin 0) && flt (F32.fin d) (F32.fin e)) = true) ↔
        (d ≥ 0 ∧ d < e) := by
    intro d e
    show (decide (0 ≤ d) && decide (d < e)) = true ↔ _
    simp
  have hneg : ∀ t : ℚ, (flt (F32.fin t) (F32.fin 0) = true) ↔ t < 0 := by
    intro t
    show decide (t < 0) = true ↔ _
    simp
  by_cases g1 : RayTracing.dot k.getNormal ray.R ≥ 0 ∧
      RayTracing.dot k.getNormal ray.R < 13743895 / 137438953472
  · rw [if_pos ((hguard _ _).mpr g1), if_pos g1]
    rfl
  · have hd0 : RayTracing.dot k.getNormal ray.R ≠ 0 := divisor_ne_zero g1
    rw [if_neg (mt (hguard _ _).mp g1), if_neg g1, fdiv_fin hd0 hq]
    by_cases g2 : (RayTracing.dot k.getNormal ray.O + RayTracing.dot k.getNormal k.a) /
        RayTracing.dot k.getNormal ray.R < 0
    · rw [if_pos ((hneg _).mpr g2), if_pos g2]
      rfl
    · rw [if_neg (mt (hneg _).mp g2), if_neg g2]
      rfl

/-- Where nothing is rounded `isInside` returns what it returns in the exact model. -/
theorem isInside_ofExact {k : RayTracing.Triangle} {p : RayTracing.Point}
    (h : ExactInside k p) :
    (Triangle.ofExact k).isInside (Point.ofExact p) = k.isInside p := by
  obtain ⟨hn, ⟨s1, s2⟩, ⟨s3, s4, s5⟩, ⟨c0, c1, c2⟩, ⟨d0, d1, d2⟩⟩ := h
  have e1 : (Triangle.ofExact k).a = Point.ofExact k.a := rfl
  have e2 : (Triangle.ofExact k).b = Point.ofExact k.b := rfl
  have e3 : (Triangle.ofExact k).c = Point.ofExact k.c := rfl
  unfold Triangle.isInside RayTracing.Triangle.isInside
  simp only [getNormal_ofExact hn, e1, e2, e3, sub_ofExact hn.1, sub_ofExact s1, sub_ofExact s2,
    sub_ofExact s3, sub_ofExact s4, sub_ofExact s5, cross_ofExact c0, cross_ofExact c1,
    cross_ofExact c2, dot_ofExact d0, dot_ofExact d1, dot_ofExact d2]
  have hneg : ∀ t : ℚ, flt (F32.fin t) (F32.fin 0) = decide (t < 0) := fun _ => rfl
  simp only [hneg, decide_eq_true_eq]

/-- Where nothing is rounded `ray.compute(t)` is the point of the exact model. -/
theorem compute_ofExact {ray : RayTracing.Ray} {t : ℚ} (h : ExactCompute ray t) :
    (Ray.ofExact ray).compute (F32.fin t) = Point.ofExact (ray.compute t) := by
  obtain ⟨h1, h2⟩ := h
  have e2 : (Ray.ofExact ray).R = Point.ofExact ray.R := rfl
  have e3 : (Ray.ofExact ray).O = Point.ofExact ray.O := rfl
  simp only [Ray.compute, RayTracing.Ray.compute, e2, e3, smul_ofExact h1, add_ofExact h2]

end Binary32

/-! ## Claims decided in the binary32 model -/

namespace Binary32

/-- A point outside the triangle that rounding lets in: for `first` and
`p = (0.5, 2^-30, -3)`, a point of the plane with `2 * p.x + p.y > 1`, the binary32
`isInside` computes `p - c = (-0.5, 1, 0)` and returns `true`, while `p` is not in the
closed triangle. -/
theorem isInside_accepts_outside_point :
    first.getNormal ≠ ⟨0, 0, 0⟩ ∧
    RayTracing.dot first.getNormal ((⟨1 / 2, 1 / 2 ^ 30, -3⟩ : RayTracing.Point) - first.a) = 0 ∧
    (Triangle.ofExact first).isInside (Point.ofExact ⟨1 / 2, 1 / 2 ^ 30, -3⟩) = true ∧
    ¬ InClosedTriangle first ⟨1 / 2, 1 / 2 ^ 30, -3⟩ := by
  have hn : first.getNormal ≠ ⟨0, 0, 0⟩ := by
    norm_num [RayTracing.Triangle.getNormal, RayTracing.cross, first, RayTracing.Point.sub_def]
  have hp : RayTracing.dot first.getNormal
      ((⟨1 / 2, 1 / 2 ^ 30, -3⟩ : RayTracing.Point) - first.a) = 0 := by
    norm_num [RayTracing.Triangle.getNormal, RayTracing.dot, RayTracing.cross, first,
      RayTracing.Point.sub_def]
  refine ⟨hn, hp, by decide!, ?_⟩
  intro hin
  have h := (isInside_iff_closed_triangle first ⟨1 / 2, 1 / 2 ^ 30, -3⟩ hn hp).mpr hin
  norm_num [RayTracing.Triangle.isInside, RayTracing.Triangle.getNormal, RayTracing.dot,
    RayTracing.cross, first, RayTracing.Point.sub_def] at h

/-- C6. `Triangle::isInside` classifies the points of the plane when nothing is rounded:
for a triangle whose normal is not zero and a point `p` with `dot(normal, p - a) = 0`, if
every difference, product and sum of `isInside(p)` is a binary32 number, the binary32
`isInside(p)` is `true` if and only if `p = α a + β b + γ c` for some weights
`α, β, γ >= 0` of sum one. -/
theorem C6_isInside_iff_closed_triangle_unrounded (k : RayTracing.Triangle)
    (p : RayTracing.Point) (hn : k.getNormal ≠ ⟨0, 0, 0⟩)
    (hp : RayTracing.dot k.getNormal (p - k.a) = 0) (hex : ExactInside k p) :
    (Triangle.ofExact k).isInside (Point.ofExact p) = true ↔ InClosedTriangle k p := by
  rw [isInside_ofExact hex]
  exact isInside_iff_closed_triangle k p hn hp

/-- Instance: the triangle `first` and the point `(0,0,-3)` of its plane. -/
theorem C6_isInside_iff_closed_triangle_unrounded_witness :
    (Triangle.ofExact first).isInside (Point.ofExact ⟨0, 0, -3⟩) = true ↔
      InClosedTriangle first ⟨0, 0, -3⟩ :=
  C6_isInside_iff_closed_triangle_unrounded first ⟨0, 0, -3⟩
    (by norm_num [RayTracing.Triangle.getNormal, RayTracing.cross, first,
      RayTracing.Point.sub_def])
    (by norm_num [RayTracing.Triangle.getNormal, RayTracing.dot, RayTracing.cross, first,
      RayTracing.Point.sub_def])
    (by decide!)

/-- A centroid ray whose `t` is rounded: for the triangle `(3.6f, 1.5, -2.75)`,
`(-3.6f, 1.5, -1.25)`, `(0, -3, -2)`, whose centroid is `(0,0,-2) = 2 * (0,0,-1)`, the
binary32 `intersect` along `(0,0,-1)` from the origin returns `t = 8388607 / 2^22`, one
unit in the last place below `2`. -/
theorem centroid_ray_t_rounded :
    (⟨⟨7549747 / 2097152, 3 / 2, -11 / 4⟩, ⟨-7549747 / 2097152, 3 / 2, -5 / 4⟩,
      ⟨0, -3, -2⟩, ⟨1, 0, 0⟩⟩ : RayTracing.Triangle).getNormal ≠ ⟨0, 0, 0⟩ ∧
    centroid ⟨⟨7549747 / 2097152, 3 / 2, -11 / 4⟩, ⟨-7549747 / 2097152, 3 / 2, -5 / 4⟩,
      ⟨0, -3, -2⟩, ⟨1, 0, 0⟩⟩ = RayTracing.smul 2 ⟨0, 0, -1⟩ ∧
    RayTracing.dot (⟨⟨7549747 / 2097152, 3 / 2, -11 / 4⟩, ⟨-7549747 / 2097152, 3 / 2, -5 / 4⟩,
      ⟨0, -3, -2⟩, ⟨1, 0, 0⟩⟩ : RayTracing.Triangle).getNormal ⟨0, 0, -1⟩ < 0 ∧
    ((0 : ℚ) < 2 ∧ (2 : ℚ) < FLT_MAX) ∧
    (Triangle.ofExact ⟨⟨7549747 / 2097152, 3 / 2, -11 / 4⟩,
      ⟨-7549747 / 2097152, 3 / 2, -5 / 4⟩, ⟨0, -3, -2⟩, ⟨1, 0, 0⟩⟩).intersect
        (Ray.ofExact ⟨⟨0, 0, 0⟩, ⟨0, 0, -1⟩⟩) = some (F32.fin (8388607 / 4194304)) ∧
    (8388607 / 4194304 : ℚ) ≠ 2 := by
  refine ⟨?_, ?_, ?_, ⟨by norm_num, by norm_num [FLT_MAX]⟩, by decide!, by norm_num⟩
  · norm_num [RayTracing.Triangle.getNormal, RayTracing.cross, RayTracing.Point.sub_def]
  · norm_num [centroid, RayTracing.smul, RayTracing.Point.add_def]
  · norm_num [RayTracing.Triangle.getNormal, RayTracing.dot, RayTracing.cross,
      RayTracing.Point.sub_def]

/-- C7. A ray from the origin aimed at the centroid hits when nothing is rounded: for a
triangle whose normal is not zero and a direction `R` with `centroid = s * R`,
`0 < s < FLT_MAX` and `dot(normal, R)` outside `[0, 0.0001f)`, if every operation of
`intersect`, of `ray.compute(s)` and of `isInside` at that point gives a binary32 number,
the binary32 `intersect` succeeds with `t = s`, `isInside(ray.compute(t))` is `true` and
the loop over the scene of that one triangle ends with its colour. -/
theorem C7_centroid_ray_hits_unrounded (k : RayTracing.Triangle) (R : RayTracing.Point)
    (s : ℚ) (hn : k.getNormal ≠ ⟨0, 0, 0⟩) (hs : 0 < s) (hmax : s < FLT_MAX)
    (hg : centroid k = RayTracing.smul s R)
    (hd : ¬ (0 ≤ RayTracing.dot k.getNormal R ∧
      RayTracing.dot k.getNormal R < 13743895 / 137438953472))
    (h1 : ExactIntersect k ⟨⟨0, 0, 0⟩, R⟩) (h2 : ExactCompute ⟨⟨0, 0, 0⟩, R⟩ s)
    (h3 : ExactInside k ((⟨⟨0, 0, 0⟩, R⟩ : RayTracing.Ray).compute s)) :
    (Triangle.ofExact k).intersect (Ray.ofExact ⟨⟨0, 0, 0⟩, R⟩) = some (F32.fin s) ∧
    (Triangle.ofExact k).isInside ((Ray.ofExact ⟨⟨0, 0, 0⟩, R⟩).compute (F32.fin s)) = true ∧
    (RayCast.nearest (Ray.ofExact ⟨⟨0, 0, 0⟩, R⟩) [Triangle.ofExact k]).2 =
      Point.ofExact k.col := by
  obtain ⟨e1, e2, _⟩ := centroid_ray_hits k R s hn hs hmax hg hd
  have hint : (Triangle.ofExact k).intersect (Ray.ofExact ⟨⟨0, 0, 0⟩, R⟩) =
      some (F32.fin s) := by
    rw [intersect_ofExact h1, e1]
    rfl
  have hin : (Triangle.ofExact k).isInside
      ((Ray.ofExact ⟨⟨0, 0, 0⟩, R⟩).compute (F32.fin s)) = true := by
    rw [compute_ofExact h2, isInside_ofExact h3]
    exact e2
  refine ⟨hint, hin, ?_⟩
  have hlt : flt (F32.fin s) (F32.fin FLT_MAX) = true := by
    show decide (s < FLT_MAX) = true
    exact decide_eq_true hmax
  unfold RayCast.nearest
  rw [List.foldl_cons, List.foldl_nil]
  unfold RayCast.body
  simp only [hint, hin, hlt, if_true]
  rfl

/-- Instance: the triangle `(0,2,-3)`, `(-1,-1,-3)`, `(1,-1,-3)`, whose centroid
`(0,0,-3)` is `3 * (0,0,-1)`. -/
theorem C7_centroid_ray_hits_unrounded_witness :
    (Triangle.ofExact ⟨⟨0, 2, -3⟩, ⟨-1, -1, -3⟩, ⟨1, -1, -3⟩, ⟨1, 1, 0⟩⟩).intersect
        (Ray.ofExact ⟨⟨0, 0, 0⟩, ⟨0, 0, -1⟩⟩) = some (F32.fin 3) ∧
    (Triangle.ofExact ⟨⟨0, 2, -3⟩, ⟨-1, -1, -3⟩, ⟨1, -1, -3⟩, ⟨1, 1, 0⟩⟩).isInside
        ((Ray.ofExact ⟨⟨0, 0, 0⟩, ⟨0, 0, -1⟩⟩).compute (F32.fin 3)) = true ∧
    (RayCast.nearest (Ray.ofExact ⟨⟨0, 0, 0⟩, ⟨0, 0, -1⟩⟩)
        [Triangle.ofExact ⟨⟨0, 2, -3⟩, ⟨-1, -1, -3⟩, ⟨1, -1, -3⟩, ⟨1, 1, 0⟩⟩]).2 =
      Point.ofExact ⟨1, 1, 0⟩ :=
  C7_centroid_ray_hits_unrounded ⟨⟨0, 2, -3⟩, ⟨-1, -1, -3⟩, ⟨1, -1, -3⟩, ⟨1, 1, 0⟩⟩
    ⟨0, 0, -1⟩ 3
    (by norm_num [RayTracing.Triangle.getNormal, RayTracing.cross, RayTracing.Point.sub_def])
    (by norm_num)
    (by norm_num [FLT_MAX])
    (by norm_num [centroid, RayTracing.smul, RayTracing.Point.add_def])
    (by norm_num [RayTracing.Triangle.getNormal, RayTracing.dot, RayTracing.cross,
      RayTracing.Point.sub_def])
    (by decide!)
    (by decide!)
    (by decide!)

end Binary32

namespace Binary32

/-- A value below another is not at or above it. -/
theorem fge_of_flt {a b : F32} (h : flt a b = true) : fge a b = false := by
  cases a with
  | nan => cases b <;> cases h
  | inf s =>
    cases b with
    | nan => cases h
    | inf s' => cases s <;> cases s' <;> first | rfl | cases h
    | fin b => cases s <;> first | rfl | cases h
  | fin a =>
    cases b with
    | nan => cases h
    | inf s' => cases s' <;> first | rfl | cases h
    | fin b =>
      have h' : a < b := of_decide_eq_true h
      show decide (b ≤ a) = false
      exact decide_eq_false (not_le.mpr h')

/-- A divisor equal to `0.0001f` is not rejected: for the triangle `(1,0,1)`, `(0,1,1)`,
`(0,0,1)` of normal `(0,0,1)` and the ray from the origin along `(0, 0, 0.0001f)`, the
divisor is `13743895 / 2^37`, inside `[0, 1/10000)`, and the binary32 `intersect`
returns `true` with `t = 10000`. -/
theorem intersect_accepts_divisor_epsilon :
    (0 : ℚ) ≤ 13743895 / 137438953472 ∧ (13743895 / 137438953472 : ℚ) < 1 / 10000 ∧
    dot (Triangle.ofExact ⟨⟨1, 0, 1⟩, ⟨0, 1, 1⟩, ⟨0, 0, 1⟩, ⟨1, 0, 0⟩⟩).getNormal
      (Ray.ofExact ⟨⟨0, 0, 0⟩, ⟨0, 0, 13743895 / 137438953472⟩⟩).R =
        F32.fin (13743895 / 137438953472) ∧
    (Triangle.ofExact ⟨⟨1, 0, 1⟩, ⟨0, 1, 1⟩, ⟨0, 0, 1⟩, ⟨1, 0, 0⟩⟩).intersect
      (Ray.ofExact ⟨⟨0, 0, 0⟩, ⟨0, 0, 13743895 / 137438953472⟩⟩) = some (F32.fin 10000) := by
  refine ⟨by norm_num, by norm_num, by decide!, by decide!⟩

/-- C10. Decision rule of the binary32 `Triangle::intersect`, with
`d = dot(normal, R)`, `D = dot(normal, a)` and `t = (dot(normal, O) + D) / d` as computed
in binary32 and `epsilon = 0.0001f = 13743895 / 2^37`: it fails exactly when
`0 <= d < epsilon` or `t < 0`; in every other case it succeeds with exactly that `t`,
which is not negative; in particular for every `d < 0` with `t` not negative. -/
theorem C10_intersect_decision_rule_binary32 (k : Triangle) (ray : Ray) :
    (k.intersect ray = none ↔
      (fge (dot k.getNormal ray.R) (F32.fin 0) = true ∧
        flt (dot k.getNormal ray.R) (F32.fin (13743895 / 137438953472)) = true) ∨
      flt (fdiv (fadd (dot k.getNormal ray.O) (dot k.getNormal k.a))
        (dot k.getNormal ray.R)) (F32.fin 0) = true) ∧
    (¬ ((fge (dot k.getNormal ray.R) (F32.fin 0) = true ∧
        flt (dot k.getNormal ray.R) (F32.fin (13743895 / 137438953472)) = true) ∨
      flt (fdiv (fadd (dot k.getNormal ray.O) (dot k.getNormal k.a))
        (dot k.getNormal ray.R)) (F32.fin 0) = true) →
      k.intersect ray = some (fdiv (fadd (dot k.getNormal ray.O) (dot k.getNormal k.a))
        (dot k.getNormal ray.R)) ∧
      flt (fdiv (fadd (dot k.getNormal ray.O) (dot k.getNormal k.a))
        (dot k.getNormal ray.R)) (F32.fin 0) = false) ∧
    (flt (dot k.getNormal ray.R) (F32.fin 0) = true →
      flt (fdiv (fadd (dot k.getNormal ray.O) (dot k.getNormal k.a))
        (dot k.getNormal ray.R)) (F32.fin 0) = false →
      k.intersect ray = some (fdiv (fadd (dot k.getNormal ray.O) (dot k.getNormal k.a))
        (dot k.getNormal ray.R))) := by
  unfold Triangle.intersect
  simp only [Bool.and_eq_true]
  refine ⟨?_, ?_, ?_⟩
  · split_ifs with g1 g2
    · exact ⟨fun _ => Or.inl g1, fun _ => rfl⟩
    · exact ⟨fun _ => Or.inr g2, fun _ => rfl⟩
    · constructor
      · intro h
        cases h
      · rintro (h | h)
        · exact absurd h g1
        · exact absurd h g2
  · intro hcon
    rw [not_or] at hcon
    rw [if_neg hcon.1, if_neg hcon.2]
    exact ⟨rfl, Bool.eq_false_iff.mpr hcon.2⟩
  · intro hd ht
    have hg : fge (dot k.getNormal ray.R) (F32.fin 0) = false := fge_of_flt hd
    rw [if_neg (fun h => by rw [hg] at h; exact Bool.false_ne_true h.1),
      if_neg (Bool.eq_false_iff.mp ht)]

/-- A cross product with a NaN component: for `u = v = (0, 2^100, 2^100)` both products
overflow to `+inf`, their difference is NaN, and `cross(u,v) == -cross(v,u)` is false. -/
theorem cross_overflow_not_equal :
    cross ⟨F32.fin 0, F32.fin (2 ^ 100), F32.fin (2 ^ 100)⟩
      ⟨F32.fin 0, F32.fin (2 ^ 100), F32.fin (2 ^ 100)⟩ = ⟨F32.nan, F32.fin 0, F32.fin 0⟩ ∧
    Point.eq
      (cross ⟨F32.fin 0, F32.fin (2 ^ 100), F32.fin (2 ^ 100)⟩
        ⟨F32.fin 0, F32.fin (2 ^ 100), F32.fin (2 ^ 100)⟩)
      (Point.neg (cross ⟨F32.fin 0, F32.fin (2 ^ 100), F32.fin (2 ^ 100)⟩
        ⟨F32.fin 0, F32.fin (2 ^ 100), F32.fin (2 ^ 100)⟩)) = false := by
  refine ⟨by decide!, by decide!⟩

/-- The cross product of exchanged arguments is the componentwise opposite, NaN
components included. -/
theorem cross_swap (u v : Point) : cross u v = Point.neg (cross v u) := by
  simp only [cross, Point.neg, Point.mk.injEq]
  refine ⟨?_, ?_, ?_⟩
  · rw [fsub_swap, fmul_comm u.z v.y, fmul_comm u.y v.z]
  · rw [fsub_swap]
  · rw [fsub_swap, fmul_comm u.y v.x, fmul_comm u.x v.y]

/-- The opposite of a value other than NaN is not NaN. -/
theorem fneg_ne_nan {a : F32} (h : a ≠ F32.nan) : fneg a ≠ F32.nan := by
  cases a with
  | nan => exact absurd rfl h
  | inf s => simp [fneg]
  | fin a => simp [fneg]

/-- C13. `cross` is anti-commutative in binary32 up to NaN: for all `u` and `v` the
components of `cross(u,v)` are the opposites of the components of `cross(v,u)` (a NaN
facing a NaN), and when no component of `cross(v,u)` is NaN,
`cross(u,v) == -cross(v,u)` holds. -/
theorem C13_cross_anticomm_binary32 (u v : Point) :
    cross u v = Point.neg (cross v u) ∧
    ((cross v u).x ≠ F32.nan → (cross v u).y ≠ F32.nan → (cross v u).z ≠ F32.nan →
      Point.eq (cross u v) (Point.neg (cross v u)) = true) := by
  refine ⟨cross_swap u v, ?_⟩
  intro hx hy hz
  rw [cross_swap u v]
  simp only [Point.eq, Point.neg, feq_self _ (fneg_ne_nan hx), feq_self _ (fneg_ne_nan hy),
    feq_self _ (fneg_ne_nan hz), Bool.and_self]

/-- Dot products that rounding leaves away from zero: for `u = (0.1f, 0.2f, 0.3f)` and
`v = (0.4f, 0.5f, 0.7f)` the binary32 `dot(cross(u,v), u)` is `-2^-30` and
`dot(cross(u,v), v)` is `-2^-28`. -/
theorem cross_dot_rounded :
    dot (cross ⟨F32.fin (13421773 / 134217728), F32.fin (13421773 / 67108864),
        F32.fin (5033165 / 16777216)⟩
      ⟨F32.fin (13421773 / 33554432), F32.fin (1 / 2), F32.fin (11744051 / 16777216)⟩)
      ⟨F32.fin (13421773 / 134217728), F32.fin (13421773 / 67108864),
        F32.fin (5033165 / 16777216)⟩ = F32.fin (-(1 / 2 ^ 30)) ∧
    dot (cross ⟨F32.fin (13421773 / 134217728), F32.fin (13421773 / 67108864),
        F32.fin (5033165 / 16777216)⟩
      ⟨F32.fin (13421773 / 33554432), F32.fin (1 / 2), F32.fin (11744051 / 16777216)⟩)
      ⟨F32.fin (13421773 / 33554432), F32.fin (1 / 2), F32.fin (11744051 / 16777216)⟩ =
        F32.fin (-(1 / 2 ^ 28)) := by
  refine ⟨by decide!, by decide!⟩

/-- C14. `cross(u,v)` is orthogonal to both arguments when nothing is rounded: if the
products and differences of `cross(u,v)` and the products and sums of the two dot
products are binary32 numbers, the binary32 `dot(cross(u,v), u)` and
`dot(cross(u,v), v)` are `0`. -/
theorem C14_cross_orthogonal_unrounded (u v : RayTracing.Point) (hc : ExactCross u v)
    (hu : ExactDot (RayTracing.cross u v) u) (hv : ExactDot (RayTracing.cross u v) v) :
    dot (cross (Point.ofExact u) (Point.ofExact v)) (Point.ofExact u) = F32.fin 0 ∧
    dot (cross (Point.ofExact u) (Point.ofExact v)) (Point.ofExact v) = F32.fin 0 := by
  rw [cross_ofExact hc, dot_ofExact hu, dot_ofExact hv, (cross_orthogonal u v).1,
    (cross_orthogonal u v).2]
  exact ⟨rfl, rfl⟩

/-- Instance: `u = (1,2,3)` and `v = (4,5,6)`. -/
theorem C14_cross_orthogonal_unrounded_witness :
    dot (cross (Point.ofExact ⟨1, 2, 3⟩) (Point.ofExact ⟨4, 5, 6⟩)) (Point.ofExact ⟨1, 2, 3⟩) =
      F32.fin 0 ∧
    dot (cross (Point.ofExact ⟨1, 2, 3⟩) (Point.ofExact ⟨4, 5, 6⟩)) (Point.ofExact ⟨4, 5, 6⟩) =
      F32.fin 0 :=
  C14_cross_orthogonal_unrounded ⟨1, 2, 3⟩ ⟨4, 5, 6⟩ (by decide!) (by decide!) (by decide!)

end Binary32

namespace Binary32

/-- Collinear vertices with a computed normal other than zero: the vertices `(1,3,-3)`,
`(2,6,-3)`, `(-3 * 2^-25, -9 * 2^-25, -3)` lie on one line, the binary32 normal is
`(0, 0, 2^-20)`, and for the ray from `(2,6,0)` along `(0,0,-1)` `intersect` returns
`true` with `t = 3` and the loop ends with the colour of the triangle. -/
theorem collinear_triangle_painted :
    Collinear (⟨1, 3, -3⟩ : RayTracing.Point) ⟨2, 6, -3⟩ ⟨-3 / 2 ^ 25, -9 / 2 ^ 25, -3⟩ ∧
    (Triangle.ofExact ⟨⟨1, 3, -3⟩, ⟨2, 6, -3⟩, ⟨-3 / 2 ^ 25, -9 / 2 ^ 25, -3⟩,
      ⟨1, 0, 0⟩⟩).getNormal = ⟨F32.fin 0, F32.fin 0, F32.fin (1 / 2 ^ 20)⟩ ∧
    (Triangle.ofExact ⟨⟨1, 3, -3⟩, ⟨2, 6, -3⟩, ⟨-3 / 2 ^ 25, -9 / 2 ^ 25, -3⟩,
      ⟨1, 0, 0⟩⟩).intersect (Ray.ofExact ⟨⟨2, 6, 0⟩, ⟨0, 0, -1⟩⟩) = some (F32.fin 3) ∧
    (RayCast.nearest (Ray.ofExact ⟨⟨2, 6, 0⟩, ⟨0, 0, -1⟩⟩)
      [Triangle.ofExact ⟨⟨1, 3, -3⟩, ⟨2, 6, -3⟩, ⟨-3 / 2 ^ 25, -9 / 2 ^ 25, -3⟩,
        ⟨1, 0, 0⟩⟩]).2 = ⟨F32.fin 1, F32.fin 0, F32.fin 0⟩ := by
  refine ⟨⟨⟨0, 0, -3⟩, ⟨1, 3, 0⟩, 1, 2, -3 / 2 ^ 25, ?_⟩, by decide!, by decide!, by decide!⟩
  norm_num [RayTracing.smul, RayTracing.Point.add_def]

/-- A product with the factor zero is zero or NaN. -/
theorem fmul_zero_cases (x : F32) :
    fmul (F32.fin 0) x = F32.fin 0 ∨ fmul (F32.fin 0) x = F32.nan := by
  cases x with
  | nan => exact Or.inr rfl
  | inf s => exact Or.inr rfl
  | fin b =>
    left
    show rnd (0 * b) = F32.fin 0
    rw [zero_mul, rnd_zero]

/-- A sum with a NaN operand is NaN. -/
theorem fadd_nan_left (x : F32) : fadd F32.nan x = F32.nan := by
  cases x <;> rfl

/-- A sum with a NaN operand is NaN. -/
theorem fadd_nan_right (x : F32) : fadd x F32.nan = F32.nan := by
  cases x <;> rfl

/-- The sum of two zeros is zero. -/
theorem fadd_zero_zero : fadd (F32.fin 0) (F32.fin 0) = F32.fin 0 := by
  show rnd (0 + 0) = F32.fin 0
  rw [add_zero, rnd_zero]

/-- The dot product of the zero vector with any vector is zero or NaN. -/
theorem dot_zero_cases (R : Point) :
    dot ⟨F32.fin 0, F32.fin 0, F32.fin 0⟩ R = F32.fin 0 ∨
    dot ⟨F32.fin 0, F32.fin 0, F32.fin 0⟩ R = F32.nan := by
  unfold dot
  rcases fmul_zero_cases R.x with hx | hx <;> rcases fmul_zero_cases R.y with hy | hy <;>
    rcases fmul_zero_cases R.z with hz | hz <;>
    simp only [hx, hy, hz, fadd_zero_zero, fadd_nan_left, fadd_nan_right, or_true, true_or]

/-- The dot product of the zero vector with a vector of finite coordinates is zero. -/
theorem dot_zero_finite (r : RayTracing.Point) :
    dot ⟨F32.fin 0, F32.fin 0, F32.fin 0⟩ (Point.ofExact r) = F32.fin 0 := by
  have hm : ∀ x : ℚ, fmul (F32.fin 0) (F32.fin x) = F32.fin 0 := by
    intro x
    show rnd (0 * x) = F32.fin 0
    rw [zero_mul, rnd_zero]
  simp only [dot, Point.ofExact, hm, fadd_zero_zero]

/-- With a zero computed normal and a zero divisor the near-parallel test rejects. -/
theorem intersect_of_divisor_zero (k : Triangle) (ray : Ray)
    (hd : dot k.getNormal ray.R = F32.fin 0) : k.intersect ray = none := by
  unfold Triangle.intersect
  simp only [hd]
  have hg : (fge (F32.fin 0) (F32.fin 0) &&
      flt (F32.fin 0) (F32.fin (13743895 / 137438953472))) = true := by decide!
  rw [if_pos hg]

/-- A triangle whose computed normal is zero leaves the state of the loop unchanged. -/
theorem body_of_normal_zero (k : Triangle) (hk : k.getNormal = ⟨F32.fin 0, F32.fin 0, F32.fin 0⟩)
    (ray : Ray) (st : F32 × Point) : RayCast.body ray st k = st := by
  rcases dot_zero_cases ray.R with hd | hd
  · unfold RayCast.body
    rw [intersect_of_divisor_zero k ray (by rw [hk]; exact hd)]
  · have hi : k.intersect ray = some F32.nan := by
      unfold Triangle.intersect
      simp only [hk, hd]
      have hg : (fge F32.nan (F32.fin 0) &&
          flt F32.nan (F32.fin (13743895 / 137438953472))) = false := rfl
      have ht : ∀ x : F32, fdiv x F32.nan = F32.nan := by
        intro x
        cases x <;> rfl
      rw [hg, ht]
      rfl
    unfold RayCast.body
    rw [hi]
    have hlt : flt F32.nan st.1 = false := by
      cases st.1 <;> rfl
    simp only [hlt, Bool.false_eq_true, if_false, ite_self]

/-- C17. Triangles of zero computed normal never colour a pixel: for collinear vertices
whose differences and products in `getNormal` are binary32 numbers the computed normal
`cross(a-c, b-c)` is the zero vector; then `intersect` fails for every ray of finite
direction, and the loop over a scene of triangles of zero computed normal ends with the
background `(0,0,0)` for every ray. -/
theorem C17_zero_normal_is_background (k : RayTracing.Triangle)
    (h : Collinear k.a k.b k.c) (hex : ExactNormal k) :
    (Triangle.ofExact k).getNormal = ⟨F32.fin 0, F32.fin 0, F32.fin 0⟩ ∧
    (∀ (O : Point) (r : RayTracing.Point),
      (Triangle.ofExact k).intersect ⟨O, Point.ofExact r⟩ = none) ∧
    ∀ (ray : Ray) (triangles : List Triangle),
      (∀ k' ∈ triangles, k'.getNormal = ⟨F32.fin 0, F32.fin 0, F32.fin 0⟩) →
      (RayCast.nearest ray triangles).2 = ⟨F32.fin 0, F32.fin 0, F32.fin 0⟩ := by
  have hz : (Triangle.ofExact k).getNormal = ⟨F32.fin 0, F32.fin 0, F32.fin 0⟩ := by
    rw [getNormal_ofExact hex, normal_of_collinear k h]
    rfl
  refine ⟨hz, ?_, ?_⟩
  · intro O r
    apply intersect_of_divisor_zero
    rw [hz]
    exact dot_zero_finite r
  · intro ray triangles hall
    have key : ∀ (l : List Triangle) (st : F32 × Point),
        (∀ k' ∈ l, k'.getNormal = ⟨F32.fin 0, F32.fin 0, F32.fin 0⟩) →
        l.foldl (RayCast.body ray) st = st := by
      intro l
      induction l with
      | nil => exact fun _ _ => rfl
      | cons k' l ih =>
        intro st hl
        rw [List.foldl_cons, body_of_normal_zero k' (hl k' (List.mem_cons_self _ _)) ray st]
        exact ih st (fun k'' hk'' => hl k'' (List.mem_cons_of_mem _ hk''))
    unfold RayCast.nearest
    rw [key triangles _ hall]

/-- Instance: the vertices `(0,0,-3)`, `(1,1,-3)`, `(2,2,-3)` on one line. -/
theorem C17_zero_normal_is_background_witness :
    (Triangle.ofExact ⟨⟨0, 0, -3⟩, ⟨1, 1, -3⟩, ⟨2, 2, -3⟩, ⟨1, 0, 0⟩⟩).getNormal =
      ⟨F32.fin 0, F32.fin 0, F32.fin 0⟩ ∧
    (∀ (O : Point) (r : RayTracing.Point),
      (Triangle.ofExact ⟨⟨0, 0, -3⟩, ⟨1, 1, -3⟩, ⟨2, 2, -3⟩, ⟨1, 0, 0⟩⟩).intersect
        ⟨O, Point.ofExact r⟩ = none) ∧
    ∀ (ray : Ray) (triangles : List Triangle),
      (∀ k' ∈ triangles, k'.getNormal = ⟨F32.fin 0, F32.fin 0, F32.fin 0⟩) →
      (RayCast.nearest ray triangles).2 = ⟨F32.fin 0, F32.fin 0, F32.fin 0⟩ :=
  C17_zero_normal_is_background ⟨⟨0, 0, -3⟩, ⟨1, 1, -3⟩, ⟨2, 2, -3⟩, ⟨1, 0, 0⟩⟩
    ⟨⟨0, 0, -3⟩, ⟨1, 1, 0⟩, 0, 1, 2, by norm_num [RayTracing.smul, RayTracing.Point.add_def]⟩
    (by decide!)

end Binary32

namespace Binary32

/-- Windings that disagree on `t`: for the triangle `(262,128,74)`, `(85,292,-291)`,
`(163,-253,-115)` and the ray from the origin along `(0,0,-1)` the divisor has magnitude
`83673`, `dot(normal, a)` is rounded to `-38020888` while `dot(normal, b)` is
`-38020884`, and the binary32 `intersect` returns `14889731 / 2^15` for `(a,b,c)` and
`14889729 / 2^15` for `(b,a,c)`. -/
theorem windings_disagree :
    (1 / 10000 : ℚ) ≤ |RayTracing.dot (⟨⟨262, 128, 74⟩, ⟨85, 292, -291⟩, ⟨163, -253, -115⟩,
      ⟨1, 0, 0⟩⟩ : RayTracing.Triangle).getNormal ⟨0, 0, -1⟩| ∧
    (Triangle.ofExact ⟨⟨262, 128, 74⟩, ⟨85, 292, -291⟩, ⟨163, -253, -115⟩,
      ⟨1, 0, 0⟩⟩).intersect (Ray.ofExact ⟨⟨0, 0, 0⟩, ⟨0, 0, -1⟩⟩) =
        some (F32.fin (14889731 / 32768)) ∧
    (Triangle.ofExact (RayTracing.Triangle.reversed ⟨⟨262, 128, 74⟩, ⟨85, 292, -291⟩,
      ⟨163, -253, -115⟩, ⟨1, 0, 0⟩⟩)).intersect (Ray.ofExact ⟨⟨0, 0, 0⟩, ⟨0, 0, -1⟩⟩) =
        some (F32.fin (14889729 / 32768)) := by
  refine ⟨?_, by decide!, by decide!⟩
  norm_num [RayTracing.Triangle.getNormal, RayTracing.dot, RayTracing.cross,
    RayTracing.Point.sub_def]

/-- The opposite of a dot product is the dot product with the opposite vector. -/
theorem dot_neg (n R : Point) : dot (Point.neg n) R = fneg (dot n R) := by
  simp only [dot, Point.neg, fmul_fneg, ← fneg_fadd]

/-- The computed normal of the reversed triangle is the opposite computed normal. -/
theorem reversed_getNormal (k : Triangle) :
    k.reversed.getNormal = Point.neg k.getNormal :=
  cross_swap _ _

/-- A divisor of magnitude at least `epsilon` fails the near-parallel test, and so does its
opposite. -/
theorem guard_of_magnitude (d : F32)
    (h : fge d (F32.fin (13743895 / 137438953472)) = true ∨
      fge (fneg d) (F32.fin (13743895 / 137438953472)) = true) :
    (fge d (F32.fin 0) && flt d (F32.fin (13743895 / 137438953472))) = false ∧
    (fge (fneg d) (F32.fin 0) && flt (fneg d) (F32.fin (13743895 / 137438953472))) = false := by
  cases d with
  | nan =>
    rcases h with h | h <;> cases h
  | inf s =>
    cases s <;> exact ⟨rfl, rfl⟩
  | fin q =>
    have e1 : fge (F32.fin q) (F32.fin (13743895 / 137438953472)) =
        decide ((13743895 / 137438953472 : ℚ) ≤ q) := rfl
    have e2 : fge (fneg (F32.fin q)) (F32.fin (13743895 / 137438953472)) =
        decide ((13743895 / 137438953472 : ℚ) ≤ -q) := rfl
    rw [e1, e2, decide_eq_true_eq, decide_eq_true_eq] at h
    have g1 : (fge (F32.fin q) (F32.fin 0) && flt (F32.fin q) (F32.fin (13743895 / 137438953472)))
        = (decide ((0 : ℚ) ≤ q) && decide (q < 13743895 / 137438953472)) := rfl
    have g2 : (fge (fneg (F32.fin q)) (F32.fin 0) &&
        flt (fneg (F32.fin q)) (F32.fin (13743895 / 137438953472)))
        = (decide ((0 : ℚ) ≤ -q) && decide (-q < 13743895 / 137438953472)) := rfl
    rw [g1, g2]
    have hpos : (0 : ℚ) < 13743895 / 137438953472 := by norm_num
    rcases h with h | h
    · constructor
      · rw [Bool.and_eq_false_iff]
        right
        exact decide_eq_false (not_lt.mpr h)
      · rw [Bool.and_eq_false_iff]
        left
        exact decide_eq_false (by linarith)
    · constructor
      · rw [Bool.and_eq_false_iff]
        left
        exact decide_eq_false (by linarith)
      · rw [Bool.and_eq_false_iff]
        right
        exact decide_eq_false (not_lt.mpr h)

/-- C19. Winding independence in binary32.  For every triangle `(a,b,c)`, its copy
`(b,a,c)` and every ray, the computed normals and divisors are opposite, so with a
divisor of magnitude at least `epsilon = 0.0001f` the near-parallel test rejects neither:
there is no back-face culling.  When moreover every operation of `intersect` on both
windings gives a binary32 number, `intersect` returns the same outcome (same success,
same `t`) for both; `isInside` returns the same answer at every point where its
operations on both windings give binary32 numbers; and if that is so at the hit point,
the loop gives the same result when one winding replaces the other in a scene. -/
theorem C19_winding_independent_unrounded (k : RayTracing.Triangle) (ray : RayTracing.Ray)
    (hd : 13743895 / 137438953472 ≤ |RayTracing.dot k.getNormal ray.R|)
    (h1 : ExactIntersect k ray) (h2 : ExactIntersect k.reversed ray) :
    (∀ (k' : Triangle) (ray' : Ray),
      dot k'.reversed.getNormal ray'.R = fneg (dot k'.getNormal ray'.R) ∧
      (fge (dot k'.getNormal ray'.R) (F32.fin (13743895 / 137438953472)) = true ∨
        fge (fneg (dot k'.getNormal ray'.R)) (F32.fin (13743895 / 137438953472)) = true →
        (fge (dot k'.getNormal ray'.R) (F32.fin 0) &&
          flt (dot k'.getNormal ray'.R) (F32.fin (13743895 / 137438953472))) = false ∧
        (fge (dot k'.reversed.getNormal ray'.R) (F32.fin 0) &&
          flt (dot k'.reversed.getNormal ray'.R) (F32.fin (13743895 / 137438953472))) =
            false)) ∧
    (Triangle.ofExact k.reversed).intersect (Ray.ofExact ray) =
      (Triangle.ofExact k).intersect (Ray.ofExact ray) ∧
    (∀ p : RayTracing.Point, ExactInside k p → ExactInside k.reversed p →
      (Triangle.ofExact k.reversed).isInside (Point.ofExact p) =
        (Triangle.ofExact k).isInside (Point.ofExact p)) ∧
    ((∀ t : ℚ, k.intersect ray = some t →
        ExactCompute ray t ∧ ExactInside k (ray.compute t) ∧
          ExactInside k.reversed (ray.compute t)) →
      ∀ pre post : List Triangle,
        RayCast.nearest (Ray.ofExact ray) (pre ++ Triangle.ofExact k.reversed :: post) =
          RayCast.nearest (Ray.ofExact ray) (pre ++ Triangle.ofExact k :: post)) := by
  have hint : (Triangle.ofExact k.reversed).intersect (Ray.ofExact ray) =
      (Triangle.ofExact k).intersect (Ray.ofExact ray) := by
    rw [intersect_ofExact h1, intersect_ofExact h2, reversed_intersect k ray hd]
  have hins : ∀ p : RayTracing.Point, ExactInside k p → ExactInside k.reversed p →
      (Triangle.ofExact k.reversed).isInside (Point.ofExact p) =
        (Triangle.ofExact k).isInside (Point.ofExact p) := by
    intro p e1 e2
    rw [isInside_ofExact e1, isInside_ofExact e2, reversed_isInside]
  refine ⟨?_, hint, hins, ?_⟩
  · intro k' ray'
    have hneg : dot k'.reversed.getNormal ray'.R = fneg (dot k'.getNormal ray'.R) := by
      rw [reversed_getNormal, dot_neg]
    refine ⟨hneg, fun hmag => ?_⟩
    rw [hneg]
    exact guard_of_magnitude _ hmag
  · intro hhit pre post
    have hbody : ∀ st, RayCast.body (Ray.ofExact ray) st (Triangle.ofExact k.reversed) =
        RayCast.body (Ray.ofExact ray) st (Triangle.ofExact k) := by
      intro st
      unfold RayCast.body
      rw [hint, intersect_ofExact h1]
      cases hi : k.intersect ray with
      | none => rfl
      | some t =>
        obtain ⟨c1, c2, c3⟩ := hhit t hi
        simp only [Option.map_some', compute_ofExact c1, hins _ c2 c3]
        rfl
    unfold RayCast.nearest
    rw [List.foldl_append, List.foldl_append, List.foldl_cons, List.foldl_cons, hbody]

/-- Instance: the triangle `first` and the ray from the origin along `(0,0,-1)`. -/
theorem C19_winding_independent_unrounded_witness :
    (Triangle.ofExact first.reversed).intersect (Ray.ofExact ⟨⟨0, 0, 0⟩, ⟨0, 0, -1⟩⟩) =
      (Triangle.ofExact first).intersect (Ray.ofExact ⟨⟨0, 0, 0⟩, ⟨0, 0, -1⟩⟩) ∧
    (Triangle.ofExact first.reversed).isInside (Point.ofExact ⟨0, 0, -3⟩) =
      (Triangle.ofExact first).isInside (Point.ofExact ⟨0, 0, -3⟩) ∧
    ∀ pre post : List Triangle,
      RayCast.nearest (Ray.ofExact ⟨⟨0, 0, 0⟩, ⟨0, 0, -1⟩⟩)
          (pre ++ Triangle.ofExact first.reversed :: post) =
        RayCast.nearest (Ray.ofExact ⟨⟨0, 0, 0⟩, ⟨0, 0, -1⟩⟩)
          (pre ++ Triangle.ofExact first :: post) :=
  have h := C19_winding_independent_unrounded first ⟨⟨0, 0, 0⟩, ⟨0, 0, -1⟩⟩
    (by norm_num [RayTracing.Triangle.getNormal, RayTracing.dot, RayTracing.cross, first,
      RayTracing.Point.sub_def])
    (by decide!) (by decide!)
  ⟨h.2.1, h.2.2.1 ⟨0, 0, -3⟩ (by decide!) (by decide!),
    h.2.2.2 (by
      intro t ht
      rw [first_intersect] at ht
      rw [← Option.some.inj ht]
      decide!)⟩

end Binary32

end RayTracing
